import Mathlib

/-!
Verification of the dashboard-wehub metrics core: a shallow embedding of
`src/gam-data-store.js`, `src/google-ad-manager.js` and `src/redis-cache.js`.

Modelling conventions used throughout:
* JavaScript numbers are modelled as rationals; `parseFloat(x.toFixed(2))`
  is modelled by `round2` (all values rounded this way in the source are
  nonnegative, so the tie rule is immaterial here).
* A JavaScript string field whose absence and empty value behave the same
  under the `||` fallback operator is modelled as a plain `String`, with
  the empty string standing for both `undefined` and `""` (both falsy).
  Where absence and emptiness must be distinguished we use `Option String`.
* A JavaScript array field for which `undefined` and `[]` behave the same
  in the source is modelled as a plain `List`.
* Asynchronous upstream calls (the Ad Manager API, Redis, SQLite) are
  modelled as explicit oracle parameters; thrown exceptions are modelled
  with `Except` or tagged outcome types.
-/

namespace DW

/-- Rounding to two decimals, modelling `parseFloat(x.toFixed(2))` on the
nonnegative values the source applies it to. -/
def round2 (q : ℚ) : ℚ := (⌊q * 100 + 1/2⌋ : ℤ) / 100

/-! ### Generic insert-or-update association map

Both `aggregateDays` (gam-data-store.js) and `aggregateMetrics`
(google-ad-manager.js) build a plain JS object used as a map: for each
incoming item they compute a string key, create a fresh group if the key is
absent, and then accumulate the item into the group.  We model the object as
an association list in insertion order and factor the common pattern here. -/

/-- First value stored under key `k` (JS property lookup). -/
def lookupG {β : Type} (k : String) (m : List (String × β)) : Option β :=
  (m.find? (fun p => p.1 = k)).map (fun p => p.2)

/-- Does the object have key `k` (JS `if (!map[key])` guard, for non-falsy values). -/
def hasKey {β : Type} (k : String) (m : List (String × β)) : Bool :=
  m.any (fun p => p.1 = k)

/-- Replace the value at key `k` (JS property assignment on an existing key). -/
def updateG {β : Type} (k : String) (f : β → β) (m : List (String × β)) :
    List (String × β) :=
  m.map (fun p => if p.1 = k then (p.1, f p.2) else p)

/-- Process one item: create the group via `mk` if absent, then accumulate via `add`. -/
def insertG {α β : Type} (keyF : α → String) (mk : α → β) (add : β → α → β)
    (m : List (String × β)) (x : α) : List (String × β) :=
  if hasKey (keyF x) m then updateG (keyF x) (fun b => add b x) m
  else m ++ [(keyF x, add (mk x) x)]

/-- Fold a whole item stream into the map, in source iteration order. -/
def groupFold {α β : Type} (keyF : α → String) (mk : α → β) (add : β → α → β)
    (m : List (String × β)) (xs : List α) : List (String × β) :=
  xs.foldl (insertG keyF mk add) m

/-- Keys of the association map, in insertion order. -/
def keysOf {β : Type} (m : List (String × β)) : List String := m.map (fun p => p.1)

/-! ### JS truthiness helpers and deduplicating union -/

/-- JS `a || d` for an optional string, where the empty string is falsy. -/
def jsOr (a : Option String) (d : String) : String :=
  match a with
  | none => d
  | some s => if s = "" then d else s

/-- JS `a || b` chaining for two optional strings, empty string falsy. -/
def jsOrOpt (a b : Option String) : Option String :=
  match a with
  | none => b
  | some s => if s = "" then b else some s

/-- The source pattern `for (x of new) if (!xs.includes(x)) xs.push(x)`. -/
def unionInto (xs new : List String) : List String :=
  new.foldl (fun acc a => if acc.contains a then acc else acc ++ [a]) xs

/-! ### gam-data-store.js : data model

A stored day report (the JSON blob saved by `saveDayData` and produced by
`getMultiAccountStatistics` / `aggregateDays`).  Rows are the constituent
records iterated by `aggregateDays`, with `String` fields using `""` for a
missing or empty (falsy) value and `List` fields using `[]` for a missing
array, as both behave identically in the source. -/

structure GRow where
  date : String
  impressions : ℚ
  clicks : ℚ
  revenue : ℚ
  unfilled : ℚ
  unfilled_impressions : ℚ
  adUnitName : String
  domain : String
  original_currency : String
  accounts : List String
  currencies : List String
  ctr : ℚ
  ecpm : ℚ
deriving DecidableEq

structure Totals where
  impressions : ℚ
  clicks : ℚ
  revenue : ℚ
  unfilled_impressions : ℚ
  ctr : ℚ
  ecpm : ℚ
  requests_served : ℚ
  pmr : ℚ
  active_view : ℚ
deriving DecidableEq

/-- The `FloatingNumbers` object: per-domain rounded revenues plus the global
metric fields.  In JS this is a single object; domain keys never clash with
the fixed metric keys for real domain names, so we model the two parts
separately. -/
structure FloatNums where
  perDomain : List (String × ℚ)
  impressions : ℚ
  clicks : ℚ
  revenue : ℚ
  ctr : ℚ
  ecpm : ℚ
  pmr : ℚ
  active_view : ℚ
  requests_served : ℚ
  unfilled_impressions : ℚ
deriving DecidableEq

/-- A stored day report.  `data` is `none` when the blob has no `data` array
(the `!day.data` guard in `aggregateDays` then skips the whole day). -/
structure Report where
  success : Bool
  data : Option (List GRow)
  totals : Totals
  FloatingNumbers : FloatNums
  accountCount : ℕ
  successfulAccounts : ℕ
  failedAccounts : ℕ
  accounts : List String
deriving DecidableEq

/-- One element of the `daysData` input of `aggregateDays`, as produced by
`getRangeData`: a calendar date (modelled as a day number), the parsed
report, and its `updated_at` stamp. -/
structure DayEntry where
  date : ℕ
  data : Report
  updated_at : ℕ
deriving DecidableEq

/-! ### gam-data-store.js : aggregateDays -/

/-- `record.domain || record.adUnitName || 'unknown'`. -/
def rowKey (r : GRow) : String :=
  if r.domain ≠ "" then r.domain
  else if r.adUnitName ≠ "" then r.adUnitName
  else "unknown"

/-- The fresh group created when a key is first seen (`domainMap[key] = {...}`). -/
def newGroup (r : GRow) : GRow :=
  { date := r.date
    impressions := 0, clicks := 0, revenue := 0
    unfilled := 0, unfilled_impressions := 0
    adUnitName := r.adUnitName
    domain := if r.domain ≠ "" then r.domain else rowKey r
    original_currency := if r.original_currency ≠ "" then r.original_currency else "USD"
    accounts := r.accounts
    currencies := r.currencies
    ctr := 0, ecpm := 0 }

/-- Accumulating one record into its group (`d.impressions += ...` etc. plus
the deduplicating pushes into `d.accounts` and `d.currencies`). -/
def addRow (g r : GRow) : GRow :=
  { g with
    impressions := g.impressions + r.impressions
    clicks := g.clicks + r.clicks
    revenue := g.revenue + r.revenue
    unfilled := g.unfilled + r.unfilled
    unfilled_impressions := g.unfilled_impressions + r.unfilled_impressions
    accounts := unionInto g.accounts r.accounts
    currencies := unionInto g.currencies r.currencies }

/-- Mutable aggregation state of the day loop in `aggregateDays`. -/
structure DayAggSt where
  domainMap : List (String × GRow)
  allAccounts : List String
  accountCount : ℕ
  successfulAccounts : ℕ
  failedAccounts : ℕ

/-- Processing one day of `daysData`: skipped entirely when the report has no
`data` array; otherwise the account counters take their max, the longest
`accounts` list is kept, and every row is folded into the domain map. -/
def dayStep (st : DayAggSt) (de : DayEntry) : DayAggSt :=
  match de.data.data with
  | none => st
  | some rows =>
    { domainMap := groupFold rowKey newGroup addRow st.domainMap rows
      allAccounts :=
        if de.data.accounts.length > st.allAccounts.length then de.data.accounts
        else st.allAccounts
      accountCount := max st.accountCount de.data.accountCount
      successfulAccounts := max st.successfulAccounts de.data.successfulAccounts
      failedAccounts := max st.failedAccounts de.data.failedAccounts }

def dayAggState (ds : List DayEntry) : DayAggSt :=
  ds.foldl dayStep ⟨[], [], 0, 0, 0⟩

/-- All constituent rows of the input days, in iteration order (days whose
report has no `data` array contribute nothing). -/
def allRows (ds : List DayEntry) : List GRow :=
  ds.flatMap (fun de =>
    match de.data.data with
    | none => []
    | some rows => rows)

/-- The final per-group pass (`Object.values(domainMap).map(...)`) recomputing
`ctr` and `ecpm` from the summed fields. -/
def finishRow (g : GRow) : GRow :=
  { g with
    ctr := if g.impressions > 0 then round2 (g.clicks / g.impressions * 100) else 0
    ecpm := if g.impressions > 0 then round2 (g.revenue / g.impressions * 1000) else 0 }

/-- The merged report built on the multi-day path of `aggregateDays`. -/
def aggregateReport (ds : List DayEntry) : Report :=
  let st := dayAggState ds
  let data := st.domainMap.map (fun p => finishRow p.2)
  let ti := (data.map (fun d => d.impressions)).sum
  let tc := (data.map (fun d => d.clicks)).sum
  let tr := (data.map (fun d => d.revenue)).sum
  let tu := (data.map (fun d => d.unfilled_impressions)).sum
  let rs := ti + tu
  let ctr := if ti > 0 then round2 (tc / ti * 100) else 0
  let ecpm := if ti > 0 then round2 (tr / ti * 1000) else 0
  let pmr := if rs > 0 then round2 (ti / rs * 100) else 0
  { success := true
    data := some data
    totals :=
      { impressions := ti, clicks := tc, revenue := tr, unfilled_impressions := tu
        ctr := ctr, ecpm := ecpm, requests_served := rs, pmr := pmr, active_view := pmr }
    FloatingNumbers :=
      { perDomain := data.map (fun d => (d.domain, round2 d.revenue))
        impressions := ti, clicks := tc, revenue := round2 tr
        ctr := ctr, ecpm := ecpm, pmr := pmr, active_view := pmr
        requests_served := rs, unfilled_impressions := tu }
    accountCount := st.accountCount
    successfulAccounts := st.successfulAccounts
    failedAccounts := st.failedAccounts
    accounts := st.allAccounts }

/-- `aggregateDays` (gam-data-store.js lines 154-260): absent for an empty
input, the single report unchanged for one day, the merged report otherwise. -/
def aggregateDays : List DayEntry → Option Report
  | [] => none
  | [de] => some de.data
  | de1 :: de2 :: rest => some (aggregateReport (de1 :: de2 :: rest))

/-! ### gam-data-store.js : the day store and getDataForRange

Calendar dates are modelled as day numbers; the SQL string comparison on ISO
dates agrees with the numeric order.  A stored row that fails to JSON-parse
is dropped by `getRangeData`, which is the same as the date being absent, so
the store maps a key directly to a parsed record or nothing. -/

structure StoredDay where
  data : Report
  updated_at : ℕ
deriving DecidableEq

/-- The `gam_daily_data` table, keyed by (user_id, date, dimension_type). -/
def Store : Type := ℕ → ℕ → String → Option StoredDay

/-- `saveDayData`: upsert of one (user, date, dimension) record. -/
def saveDayData (st : Store) (u d : ℕ) (dim : String) (sd : StoredDay) : Store :=
  fun u2 d2 dim2 => if u2 = u ∧ d2 = d ∧ dim2 = dim then some sd else st u2 d2 dim2

/-- The date enumeration loop (`while (current <= end)`). -/
def rangeDates (s e : ℕ) : List ℕ := List.range' s (e + 1 - s)

/-- `getRangeData`: the records of the dates in range that exist, in date order. -/
def getRangeData (st : Store) (u s e : ℕ) (dim : String) : List DayEntry :=
  (rangeDates s e).filterMap (fun d =>
    (st u d dim).map (fun sd => ⟨d, sd.data, sd.updated_at⟩))

/-- `getDataForRange` (gam-data-store.js lines 266-326).  The single-day fast
path returns the stored report directly; the multi-day path returns absent as
soon as any date of the range is missing, otherwise the aggregate.  The
`_data_info` staleness metadata attached to the returned object is not part
of any claim and is omitted. -/
def getDataForRange (st : Store) (u s e : ℕ) (dim : String) : Option Report :=
  if s = e then (st u s dim).map (fun sd => sd.data)
  else
    let daysData := getRangeData st u s e dim
    let missingDates := (rangeDates s e).filter
      (fun d => !(daysData.any (fun de => de.date = d)))
    if missingDates ≠ [] then none
    else aggregateDays daysData

/-! ### gam-data-store.js : worker flags, fetchAndStoreDay, manualRefresh

The module-level flags `workerRunning` and `userRequestInProgress`.  The
upstream fetch (`gamGetMultiAccountStatistics` through the fake
request/response pair) is an oracle returning either a report or a thrown
error message.  The side write into the Redis cache layer is wrapped in a
try/ignore in the source and does not affect any modelled observable. -/

structure WState where
  workerRunning : Bool
  userRequestInProgress : Bool
deriving DecidableEq

def FetchOracle : Type := ℕ → ℕ → String → Except String Report

/-- `fetchAndStoreDay` (lines 332-368): a no-op returning `null` while
`userRequestInProgress` is set; otherwise fetches, stores under `updated_at
= now`, and returns the report.  A thrown fetch error propagates. -/
def fetchAndStoreDay (s : WState) (fetch : FetchOracle) (st : Store) (now : ℕ)
    (u d : ℕ) (dim : String) : Except String (Option Report × Store) :=
  if s.userRequestInProgress then Except.ok (none, st)
  else
    match fetch u d dim with
    | Except.error e => Except.error e
    | Except.ok r => Except.ok (some r, saveDayData st u d dim ⟨r, now⟩)

/-- Outcome object returned by `manualRefresh` to the route layer. -/
structure ManualOutcome where
  success : Bool
  error : Option String
  domains : Option ℕ
  accounts : Option ℕ
  total_accounts : Option ℕ
deriving DecidableEq

/-- The message of the TypeError raised by `result.data` when `result` is
`null`, as caught by the `catch` block of `manualRefresh`. -/
def nullDataMsg : String := "Cannot read properties of null (reading data)"

/-- `manualRefresh` (lines 445-469).  When the worker is running it refuses.
Otherwise it sets both flags, runs `fetchAndStoreDay`, and builds the outcome
in a try/catch/finally: a `null` result makes the success branch dereference
`null` and land in the catch; the finally clears both flags. -/
def manualRefresh (s : WState) (fetch : FetchOracle) (st : Store) (now : ℕ)
    (u d : ℕ) (dim : String) : ManualOutcome × WState × Store :=
  if s.workerRunning then
    ({ success := false, error := some ("Worker is already running. Please wait.")
       domains := none, accounts := none, total_accounts := none }, s, st)
  else
    let s1 : WState := { workerRunning := true, userRequestInProgress := true }
    let cleared : WState := { workerRunning := false, userRequestInProgress := false }
    match fetchAndStoreDay s1 fetch st now u d dim with
    | Except.error e =>
      ({ success := false, error := some e
         domains := none, accounts := none, total_accounts := none }, cleared, st)
    | Except.ok (none, st2) =>
      ({ success := false, error := some nullDataMsg
         domains := none, accounts := none, total_accounts := none }, cleared, st2)
    | Except.ok (some r, st2) =>
      ({ success := true, error := none
         domains := some ((r.data.getD []).length)
         accounts := some r.successfulAccounts
         total_accounts := some r.accountCount }, cleared, st2)

/-- `runSmartWorker` (lines 370-442), restricted to its flag discipline: the
two guards, then a pass whose body outcome (success or caught error) is
abstracted, with the finally clearing `workerRunning`.  The returned Bool
states whether a pass actually started. -/
def runSmartWorker (s : WState) (body : Except String Unit) : Bool × WState :=
  if s.workerRunning then (false, s)
  else if s.userRequestInProgress then (false, s)
  else
    match body with
    | Except.ok _ => (true, { s with workerRunning := false })
    | Except.error _ => (true, { s with workerRunning := false })

/-! Small-step interleaving model of the two entry points.  A configuration
counts the passes that have started and not yet reached their finally block;
guard checks and flag assignments are adjacent synchronous statements in the
source, hence atomic steps of the event loop. -/

structure WCfg where
  running : Bool
  userReq : Bool
  inFlight : ℕ
deriving DecidableEq

inductive WStep : WCfg → WCfg → Prop
  | tickNoopRunning (c : WCfg) : c.running = true → WStep c c
  | tickNoopUser (c : WCfg) : c.userReq = true → WStep c c
  | tickStart (c : WCfg) : c.running = false → c.userReq = false →
      WStep c ⟨true, c.userReq, c.inFlight + 1⟩
  | tickEnd (c : WCfg) : 0 < c.inFlight →
      WStep c ⟨false, c.userReq, c.inFlight - 1⟩
  | manualNoop (c : WCfg) : c.running = true → WStep c c
  | manualStart (c : WCfg) : c.running = false →
      WStep c ⟨true, true, c.inFlight + 1⟩
  | manualEnd (c : WCfg) : 0 < c.inFlight →
      WStep c ⟨false, false, c.inFlight - 1⟩

inductive WReach : WCfg → Prop
  | init : WReach ⟨false, false, 0⟩
  | step {c c2 : WCfg} : WReach c → WStep c c2 → WReach c2

/-! ### google-ad-manager.js : rows, currency conversion, aggregateMetrics

A per-account report row is a loosely-typed JS object: `transformReportData`
writes the camel-case fields (`adUnitName`, `orderName`, `lineItemName`),
while `aggregateMetrics` reads the snake-case ones (`ad_unit_name`,
`order_name`, `line_item_name`, `name`).  The model carries both groups as
`Option String` so the mismatch is expressible. -/

structure MRow where
  date : String
  impressions : ℚ
  clicks : ℚ
  ctr : ℚ
  revenue : ℚ
  ecpm : ℚ
  unfilled : ℚ
  unfilled_impressions : ℚ
  adUnitName : Option String
  orderName : Option String
  lineItemName : Option String
  domain : Option String
  ad_unit_name : Option String
  order_name : Option String
  line_item_name : Option String
  name : Option String
  original_currency : Option String
  accounts : List String
  currencies : List String
deriving DecidableEq

/-- The per-row dimension switch of `transformReportData` (google-ad-manager.js
lines 487-524).  The metric values are taken as already-parsed inputs; the
extracted domain stands for `extractDomainFromAdUnit(...)` and the parsed
date for `parseDateValue(...)`, both irrelevant to the claims settled here.
`ctr` is converted to a percentage as in the source. -/
def transformRow (dimensionType dimensionValue extractedDomain parsedDate date : String)
    (impressions clicks revenue ecpm ctr unfilled : ℚ) : MRow :=
  let base : MRow :=
    { date := date
      impressions := impressions, clicks := clicks, ctr := ctr * 100
      revenue := revenue, ecpm := ecpm, unfilled := unfilled
      unfilled_impressions := 0
      adUnitName := none, orderName := none, lineItemName := none, domain := none
      ad_unit_name := none, order_name := none, line_item_name := none, name := none
      original_currency := none, accounts := [], currencies := [] }
  match dimensionType with
  | "AD_UNIT" =>
    { base with
      adUnitName := some dimensionValue
      domain := some extractedDomain
      unfilled_impressions := unfilled }
  | "ORDER" => { base with orderName := some dimensionValue }
  | "LINE_ITEM" => { base with lineItemName := some dimensionValue }
  | "DATE" => { base with date := parsedDate }
  | _ => base

/-- The process-wide exchange-rate table (`exchangeRatesCache.rates`):
1 unit of the given currency in USD, absent for unknown currencies. -/
def Rates : Type := String → Option ℚ

/-- `convertToUSD` (lines 109-128).  USD passes through; an unknown or zero
(falsy) rate leaves the amount unchanged; otherwise multiply. -/
def convertToUSD (rates : Rates) (amount : ℚ) (fromCurrency : String) : ℚ :=
  if fromCurrency = "USD" then amount
  else
    match rates fromCurrency with
    | none => amount
    | some rate => if rate = 0 then amount else amount * rate

/-- Result of `getAccountStatistics` for one account: either the account
identity with its day rows, or a structured failure with empty data. -/
structure AccountResult where
  accountId : ℕ
  accountName : String
  networkCode : String
  currencyCode : Option String
  timezone : Option String
  success : Bool
  error : Option String
  data : List MRow
deriving DecidableEq

/-- `accountResult.currencyCode || 'USD'`. -/
def curOf (a : AccountResult) : String := jsOr a.currencyCode ("USD")

/-- The grouping key of `aggregateMetrics` (lines 808-826): for the named
dimensions, the snake-case row field (falling back through `row.name` to
`"Unknown"`) suffixed with the account display name; for `DATE` and any
other dimension, the row date. -/
def mKey (dimensionType : String) (accName : String) (r : MRow) : String :=
  match dimensionType with
  | "AD_UNIT" => jsOr (jsOrOpt r.ad_unit_name r.name) ("Unknown") ++ " (" ++ accName ++ ")"
  | "ORDER" => jsOr (jsOrOpt r.order_name r.name) ("Unknown") ++ " (" ++ accName ++ ")"
  | "LINE_ITEM" => jsOr (jsOrOpt r.line_item_name r.name) ("Unknown") ++ " (" ++ accName ++ ")"
  | _ => r.date

/-- The fresh group for a key (`aggregated[key] = {...row, ...}`): the first
row is spread, metrics are zeroed, and the account currency is recorded as
`original_currency`. -/
def newMGroup (r : MRow) (cur : String) : MRow :=
  { r with
    impressions := 0, clicks := 0, revenue := 0
    original_currency := some cur
    unfilled_impressions := 0
    accounts := [], currencies := [] }

/-- Accumulating one row into its group: raw metrics are summed with revenue
kept in the original currency, the account name is pushed, and the currency
is pushed if not yet tracked. -/
def addMRow (accName cur : String) (g r : MRow) : MRow :=
  { g with
    impressions := g.impressions + r.impressions
    clicks := g.clicks + r.clicks
    revenue := g.revenue + r.revenue
    unfilled_impressions := g.unfilled_impressions + r.unfilled_impressions
    accounts := g.accounts ++ [accName]
    currencies :=
      if g.currencies.contains cur then g.currencies else g.currencies ++ [cur] }

/-- The (account, row) stream iterated by the two nested `forEach` loops of
`aggregateMetrics`, in source order; unsuccessful accounts are skipped. -/
def mPairs (accountsData : List AccountResult) : List (AccountResult × MRow) :=
  (accountsData.filter (fun a => a.success)).flatMap
    (fun a => a.data.map (fun r => (a, r)))

def mKeyF (dimensionType : String) (p : AccountResult × MRow) : String :=
  mKey dimensionType p.1.accountName p.2

def mMk (p : AccountResult × MRow) : MRow := newMGroup p.2 (curOf p.1)

def mAdd (g : MRow) (p : AccountResult × MRow) : MRow :=
  addMRow p.1.accountName (curOf p.1) g p.2

/-- Mutable state of the row loop of `aggregateMetrics`: the keyed map and
the four global totals accumulated per row (revenue converted to USD only
for the totals). -/
structure MAggSt where
  m : List (String × MRow)
  tImp : ℚ
  tClk : ℚ
  tRev : ℚ
  tUnf : ℚ

def mStep (rates : Rates) (dimensionType : String) (st : MAggSt)
    (p : AccountResult × MRow) : MAggSt :=
  { m := insertG (mKeyF dimensionType) mMk mAdd st.m p
    tImp := st.tImp + p.2.impressions
    tClk := st.tClk + p.2.clicks
    tRev := st.tRev + convertToUSD rates p.2.revenue (curOf p.1)
    tUnf := st.tUnf + p.2.unfilled_impressions }

def mAggState (rates : Rates) (accountsData : List AccountResult)
    (dimensionType : String) : MAggSt :=
  (mPairs accountsData).foldl (mStep rates dimensionType) ⟨[], 0, 0, 0, 0⟩

/-- The final per-group map recomputing `ctr`/`ecpm` from summed values. -/
def finishMRow (g : MRow) : MRow :=
  { g with
    ctr := if g.impressions > 0 then round2 (g.clicks / g.impressions * 100) else 0
    ecpm := if g.impressions > 0 then round2 (g.revenue / g.impressions * 1000) else 0 }

structure MAggResult where
  data : List MRow
  totals : Totals
  FloatingNumbers : Totals
deriving DecidableEq

/-- `aggregateMetrics` (google-ad-manager.js lines 795-922). -/
def aggregateMetrics (rates : Rates) (accountsData : List AccountResult)
    (dimensionType : String) : MAggResult :=
  let st := mAggState rates accountsData dimensionType
  let result := st.m.map (fun p => finishMRow p.2)
  let totalRequests := st.tImp + st.tUnf
  let pmr := if totalRequests > 0 then round2 (st.tImp / totalRequests * 100) else 0
  let activeView := if st.tImp > 0 then round2 ((st.tImp - st.tUnf) / st.tImp * 100) else 0
  let ctr := if st.tImp > 0 then round2 (st.tClk / st.tImp * 100) else 0
  let ecpm := if st.tImp > 0 then round2 (st.tRev / st.tImp * 1000) else 0
  let tot : Totals :=
    { impressions := st.tImp, clicks := st.tClk, revenue := st.tRev
      unfilled_impressions := st.tUnf, ctr := ctr, ecpm := ecpm
      requests_served := totalRequests, pmr := pmr, active_view := activeView }
  { data := result, totals := tot, FloatingNumbers := tot }

/-! ### google-ad-manager.js : getAccountStatistics retry loop -/

/-- A row of the `google_ad_manager_accounts` table, as consumed by
`getAccountStatistics` (token columns are part of the opaque upstream auth
and not modelled). -/
structure Account where
  id : ℕ
  account_name : String
  network_code : String
  currency_code : Option String
  timezone : Option String
  domain : Option String
  is_active : Bool
deriving DecidableEq

/-- Outcome of one attempt of the try body (token refresh + upstream report
workflow): a successful stats payload, a returned `success: false` stats
object, or a thrown error that is or is not a 429 rate-limit signal. -/
inductive AttemptOutcome where
  | ok (data : List MRow)
  | softFail (err : String)
  | exn (is429 : Bool) (msg : String)
deriving DecidableEq

def AttemptOracle : Type := ℕ → AttemptOutcome

def maxRetries : ℕ := 3

def successRecord (acc : Account) (data : List MRow) : AccountResult :=
  { accountId := acc.id
    accountName := acc.account_name
    networkCode := acc.network_code
    currencyCode := some (jsOr acc.currency_code ("USD"))
    timezone := some (jsOr acc.timezone ("America/New_York"))
    success := true, error := none, data := data }

def failureRecord (acc : Account) (lastError : Option String) : AccountResult :=
  { accountId := acc.id
    accountName := acc.account_name
    networkCode := acc.network_code
    currencyCode := none, timezone := none
    success := false
    error := some (lastError.getD ("Unknown error after retries"))
    data := [] }

/-- The retry loop of `getAccountStatistics` (lines 713-789), parametrised by
remaining fuel (`maxRetries - attempt + 1`).  Returns the per-account result,
the backoff delays slept in milliseconds, and the number of attempts made. -/
def gasGo (acc : Account) (oracle : AttemptOracle) :
    ℕ → ℕ → Option String → List ℕ → AccountResult × List ℕ × ℕ
  | 0, attempt, lastError, delays => (failureRecord acc lastError, delays, attempt - 1)
  | fuel + 1, attempt, _lastError, delays =>
    match oracle attempt with
    | AttemptOutcome.ok data => (successRecord acc data, delays, attempt)
    | AttemptOutcome.softFail e => gasGo acc oracle fuel (attempt + 1) (some e) delays
    | AttemptOutcome.exn is429 msg =>
      if is429 ∧ attempt < maxRetries then
        gasGo acc oracle fuel (attempt + 1) (some msg)
          (delays ++ [5000 * 2 ^ (attempt - 1)])
      else (failureRecord acc (some msg), delays, attempt)

def getAccountStatistics (acc : Account) (oracle : AttemptOracle) :
    AccountResult × List ℕ × ℕ :=
  gasGo acc oracle maxRetries 1 none []

/-! ### google-ad-manager.js : getMultiAccountStatistics -/

/-- The three JSON response shapes of `getMultiAccountStatistics`
(lines 927-1073): the catch-all 500 error (only a failing account
enumeration can reach it), the empty-account-list early success, and the
aggregated success carrying counts and the structured failure list. -/
inductive MultiResponse where
  | serverError (msg : String)
  | emptyAccounts
  | ok (agg : MAggResult) (accountCount successfulAccounts failedAccounts : ℕ)
      (errors : Option (List (String × String)))
deriving DecidableEq

/-- Does the response body report `success: true`. -/
def MultiResponse.isSuccess : MultiResponse → Bool
  | MultiResponse.serverError _ => false
  | _ => true

/-- The structured failure entry for one account
(`{account, error}`, built from the account row and the settled result). -/
def failEntry (a : Account) (r : AccountResult) : String × String :=
  (a.account_name, r.error.getD ("Unknown error (success=false)"))

/-- `getMultiAccountStatistics`, with the account enumeration and the settled
per-account results as oracles.  Batching only spaces the calls out in time;
results are appended batch by batch in account order, which the plain map
reproduces.  `getAccountStatistics` never rejects, so the `rejected` branch
of the result collection is unreachable and each promise settles to its
`AccountResult`. -/
def getMultiAccountStatistics (rates : Rates)
    (enumerate : Except String (List Account))
    (fetch : Account → AccountResult) (dimensionType : String) : MultiResponse :=
  match enumerate with
  | Except.error e => MultiResponse.serverError e
  | Except.ok accounts =>
    if accounts.length = 0 then MultiResponse.emptyAccounts
    else
      let results := accounts.map fetch
      let accountsData := results.filter (fun r => r.success)
      let failedAccounts := (accounts.zip results).filterMap
        (fun p => if p.2.success then none else some (failEntry p.1 p.2))
      MultiResponse.ok (aggregateMetrics rates accountsData dimensionType)
        accounts.length accountsData.length failedAccounts.length
        (if failedAccounts.length > 0 then some failedAccounts else none)

/-! ### redis-cache.js : the tiered cache

The hot tier is a key-value store with a connected/enabled status and a
failure mode in which every operation throws (a lost connection).  The
durable tier is the `gam_cache` SQLite table; rows carry an expiry stamp and
lookups only see unexpired rows.  Values are polymorphic (the source stores
JSON blobs). -/

structure RedisSt (V : Type) where
  enabled : Bool
  connected : Bool
  failing : Bool
  store : List (String × V)
deriving DecidableEq

/-- A raw Redis GET: throws when the connection is failing. -/
def redisGet {V : Type} (R : RedisSt V) (k : String) : Except String (Option V) :=
  if R.failing then Except.error ("Connection lost")
  else Except.ok (lookupG k R.store)

/-- A raw Redis SETEX: throws when the connection is failing. -/
def redisSetEx {V : Type} (R : RedisSt V) (k : String) (v : V) :
    Except String (RedisSt V) :=
  if R.failing then Except.error ("Connection lost")
  else Except.ok { R with store := (k, v) :: R.store.filter (fun p => p.1 ≠ k) }

/-- One row of the `gam_cache` table. -/
structure CacheRow (V : Type) where
  user_id : ℕ
  cache_key : String
  data : V
  start_date : ℕ
  end_date : ℕ
  dimension_type : String
  expires_at : ℕ
deriving DecidableEq

def SqliteCache (V : Type) : Type := List (CacheRow V)

/-- `generateCacheKey` (redis-cache.js line 104). -/
def generateCacheKey (userId startDate endDate : ℕ) (dimensionType : String) : String :=
  "gam:" ++ toString userId ++ ":" ++ toString startDate ++ ":" ++ toString endDate
    ++ ":" ++ dimensionType

/-- `getFromRedis` (lines 109-123): absent when Redis is disabled or the
client is missing; a thrown GET (or a missing key) is absorbed into absent. -/
def getFromRedis {V : Type} (R : RedisSt V) (cacheKey : String) : Option V :=
  if ¬ R.enabled ∨ ¬ R.connected then none
  else
    match redisGet R cacheKey with
    | Except.error _ => none
    | Except.ok v => v

/-- `saveToRedis` (lines 126-135): a no-op when Redis is disabled or the
client is missing; a thrown SETEX is absorbed, leaving the state unchanged. -/
def saveToRedis {V : Type} (R : RedisSt V) (cacheKey : String) (v : V) : RedisSt V :=
  if ¬ R.enabled ∨ ¬ R.connected then R
  else
    match redisSetEx R cacheKey v with
    | Except.error _ => R
    | Except.ok R2 => R2

/-- `getFromSQLite` (lines 138-164): the first unexpired row for the user and
key. -/
def getFromSQLite {V : Type} (db : SqliteCache V) (now : ℕ) (userId : ℕ)
    (cacheKey : String) : Option V :=
  (db.find? (fun row =>
    row.user_id = userId ∧ row.cache_key = cacheKey ∧ row.expires_at > now)).map
    (fun row => row.data)

/-- `saveToSQLite` (lines 167-188): `INSERT OR REPLACE` on the unique
`cache_key`, with `expires_at = now + ttl` (milliseconds). -/
def saveToSQLite {V : Type} (db : SqliteCache V) (now : ℕ) (userId : ℕ)
    (cacheKey : String) (v : V) (startDate endDate : ℕ) (dimensionType : String)
    (ttlSeconds : ℕ) : SqliteCache V :=
  db.filter (fun row => row.cache_key ≠ cacheKey) ++
    [{ user_id := userId, cache_key := cacheKey, data := v
       start_date := startDate, end_date := endDate
       dimension_type := dimensionType, expires_at := now + ttlSeconds * 1000 }]

/-- `getCachedData` (lines 191-207): Redis first, then the durable tier; a
durable hit re-warms Redis when it is enabled (the warm-up write itself
absorbs failures).  Returns the value served and the possibly re-warmed
Redis state. -/
def getCachedData {V : Type} (R : RedisSt V) (db : SqliteCache V) (now : ℕ)
    (userId startDate endDate : ℕ) (dimensionType : String) :
    Option V × RedisSt V :=
  let cacheKey := generateCacheKey userId startDate endDate dimensionType
  match getFromRedis R cacheKey with
  | some v => (some v, R)
  | none =>
    match getFromSQLite db now userId cacheKey with
    | some v => (some v, if R.enabled then saveToRedis R cacheKey v else R)
    | none => (none, R)

/-- `setCachedData` (lines 210-218): write both tiers; the Redis side absorbs
its own failures, the durable side always lands. -/
def setCachedData {V : Type} (R : RedisSt V) (db : SqliteCache V) (now : ℕ)
    (userId startDate endDate : ℕ) (dimensionType : String) (v : V)
    (ttlSeconds : ℕ) : RedisSt V × SqliteCache V :=
  let cacheKey := generateCacheKey userId startDate endDate dimensionType
  (saveToRedis R cacheKey v,
   saveToSQLite db now userId cacheKey v startDate endDate dimensionType ttlSeconds)

/-! Concrete inputs for the cross-account currency example of the spec:
one EUR account reporting revenue 100 and one USD account reporting
revenue 50, with the EUR→USD rate 1.18. -/

def exRates : Rates := fun c => if c = "EUR" then some (59 / 50) else none

def exRowEUR : MRow :=
  transformRow ("AD_UNIT") ("unit") ("dom") ("") ("2025-01-01") 1000 10 100 0 0 0

def exRowUSD : MRow :=
  transformRow ("AD_UNIT") ("unit") ("dom") ("") ("2025-01-01") 500 5 50 0 0 0

def exAccEUR : AccountResult :=
  { accountId := 1, accountName := "A", networkCode := "n1"
    currencyCode := some ("EUR"), timezone := none
    success := true, error := none, data := [exRowEUR] }

def exAccUSD : AccountResult :=
  { accountId := 2, accountName := "B", networkCode := "n2"
    currencyCode := some ("USD"), timezone := none
    success := true, error := none, data := [exRowUSD] }

/-! Concrete input demonstrating the grouping-key field mismatch: one
account with two AD_UNIT rows carrying different ad-unit names, exactly as
`transformReportData` produces them. -/

def c5rowA : MRow :=
  transformRow ("AD_UNIT") ("alpha_unit") ("alpha") ("") ("2025-01-01") 10 1 5 0 0 2

def c5rowB : MRow :=
  transformRow ("AD_UNIT") ("beta_unit") ("beta") ("") ("2025-01-01") 20 2 7 0 0 3

def c5acc : AccountResult :=
  { accountId := 1, accountName := "Acct", networkCode := "net"
    currencyCode := some ("USD"), timezone := none
    success := true, error := none, data := [c5rowA, c5rowB] }

/-! Concrete input separating active_view from pmr in aggregateMetrics: a
single AD_UNIT row with 100 impressions and 50 unfilled impressions. -/

def c9row : MRow :=
  transformRow ("AD_UNIT") ("u") ("d") ("") ("2025-01-01") 100 0 0 0 0 50

def c9acc : AccountResult :=
  { accountId := 1, accountName := "A", networkCode := "n"
    currencyCode := some ("USD"), timezone := none
    success := true, error := none, data := [c9row] }

/-! Concrete inputs used by the witnesses. -/

def zeroTotals : Totals := ⟨0, 0, 0, 0, 0, 0, 0, 0, 0⟩

def zeroFloat : FloatNums := ⟨[], 0, 0, 0, 0, 0, 0, 0, 0, 0⟩

def rowW : GRow :=
  { date := "2025-01-05", impressions := 1, clicks := 1, revenue := 1
    unfilled := 1, unfilled_impressions := 1
    adUnitName := "au", domain := "d", original_currency := "USD"
    accounts := [], currencies := [], ctr := 0, ecpm := 0 }

def repW : Report :=
  { success := true, data := some [rowW], totals := zeroTotals
    FloatingNumbers := zeroFloat, accountCount := 1, successfulAccounts := 1
    failedAccounts := 0, accounts := ["a"] }

def stW : Store := fun u d dim =>
  if u = 1 ∧ (d = 5 ∨ d = 6) ∧ dim = "AD_UNIT" then some ⟨repW, 0⟩ else none

def dsW : List DayEntry := [⟨5, repW, 0⟩, ⟨6, repW, 0⟩]

def gW : GRow :=
  { date := "2025-01-05", impressions := 2, clicks := 2, revenue := 2
    unfilled := 2, unfilled_impressions := 2
    adUnitName := "au", domain := "d", original_currency := "USD"
    accounts := [], currencies := [], ctr := 0, ecpm := 0 }

def gW4 : MRow :=
  { date := "2025-01-01", impressions := 1000, clicks := 10, ctr := 0
    revenue := 100, ecpm := 0, unfilled := 0, unfilled_impressions := 0
    adUnitName := some ("unit"), orderName := none, lineItemName := none
    domain := some ("dom"), ad_unit_name := none, order_name := none
    line_item_name := none, name := none, original_currency := some ("EUR")
    accounts := ["A"], currencies := ["EUR"] }

def accW : Account :=
  { id := 1, account_name := "Acct", network_code := "n"
    currency_code := none, timezone := none, domain := none, is_active := true }

def fetchFailW : Account → AccountResult := fun a => failureRecord a (some ("boom"))

def fetchW : FetchOracle := fun _ _ _ => Except.error ("down")

def storeW : Store := fun _ _ _ => none

def redFailW : RedisSt ℕ := ⟨true, true, true, []⟩

def redOffW : RedisSt ℕ := ⟨false, true, false, []⟩

/-! ### Theorems -/

theorem lookupG_nil {β : Type} (k : String) : lookupG k ([] : List (String × β)) = none := rfl

theorem lookupG_cons {β : Type} (k : String) (p : String × β) (m : List (String × β)) :
    lookupG k (p :: m) = if p.1 = k then some p.2 else lookupG k m := by
  simp only [lookupG, List.find?]
  by_cases h : p.1 = k
  · simp [h]
  · simp [h]

theorem hasKey_iff_lookupG {β : Type} (k : String) (m : List (String × β)) :
    hasKey k m = true ↔ (lookupG k m).isSome := by
  induction m with
  | nil => simp [hasKey, lookupG]
  | cons p m ih =>
    rw [lookupG_cons]
    by_cases h : p.1 = k
    · simp [hasKey, h]
    · simpa [hasKey, h] using ih

theorem lookupG_append {β : Type} (k : String) (m m2 : List (String × β)) :
    lookupG k (m ++ m2) =
      match lookupG k m with
      | some b => some b
      | none => lookupG k m2 := by
  induction m with
  | nil => simp [lookupG]
  | cons p m ih =>
    rw [List.cons_append, lookupG_cons, lookupG_cons]
    by_cases h : p.1 = k
    · simp [h]
    · simp [h, ih]

theorem lookupG_updateG_self {β : Type} (k : String) (f : β → β) (m : List (String × β)) :
    lookupG k (updateG k f m) = (lookupG k m).map f := by
  induction m with
  | nil => simp [lookupG, updateG]
  | cons p m ih =>
    by_cases h : p.1 = k
    · simp [updateG, lookupG_cons, h]
    · simp only [updateG, List.map_cons, if_neg h]
      rw [lookupG_cons, lookupG_cons, if_neg h, if_neg h]
      simpa [updateG] using ih

theorem lookupG_updateG_ne {β : Type} {k k2 : String} (h : k2 ≠ k) (f : β → β)
    (m : List (String × β)) :
    lookupG k (updateG k2 f m) = lookupG k m := by
  induction m with
  | nil => simp [lookupG, updateG]
  | cons p m ih =>
    by_cases hp : p.1 = k2
    · have hpk : ¬ p.1 = k := by rw [hp]; exact h
      simp only [updateG, List.map_cons, if_pos hp]
      rw [lookupG_cons, lookupG_cons]
      simp only [hpk, if_false]
      simpa [updateG] using ih
    · simp only [updateG, List.map_cons, if_neg hp]
      rw [lookupG_cons, lookupG_cons]
      by_cases hk : p.1 = k
      · simp [hk]
      · simp only [hk, if_false]
        simpa [updateG] using ih

theorem lookupG_insertG_ne {α β : Type} (keyF : α → String) (mk : α → β)
    (add : β → α → β) {k : String} {x : α} (h : keyF x ≠ k)
    (m : List (String × β)) :
    lookupG k (insertG keyF mk add m x) = lookupG k m := by
  unfold insertG
  by_cases hh : hasKey (keyF x) m
  · rw [if_pos hh, lookupG_updateG_ne h]
  · rw [if_neg hh, lookupG_append]
    rw [lookupG_cons]
    simp only [h, if_false, lookupG_nil]
    cases lookupG k m <;> simp

/-- Central lemma: the value stored under `k` after folding a stream is the
fold of `add` over exactly the items whose key is `k`. -/
theorem lookupG_groupFold {α β : Type} (keyF : α → String) (mk : α → β)
    (add : β → α → β) (xs : List α) (m : List (String × β)) (k : String) :
    lookupG k (groupFold keyF mk add m xs) =
      match lookupG k m, xs.filter (fun x => keyF x = k) with
      | some b, l => some (l.foldl add b)
      | none, [] => none
      | none, y :: ys => some (ys.foldl add (add (mk y) y)) := by
  induction xs generalizing m with
  | nil =>
    simp only [groupFold, List.foldl_nil, List.filter_nil]
    cases lookupG k m <;> rfl
  | cons x xs ih =>
    have hstep : groupFold keyF mk add m (x :: xs)
        = groupFold keyF mk add (insertG keyF mk add m x) xs := rfl
    rw [hstep, ih]
    by_cases hx : keyF x = k
    · have hfil : (x :: xs).filter (fun x => keyF x = k)
          = x :: xs.filter (fun x => keyF x = k) := by
        simp [List.filter, hx]
      rw [hfil]
      cases hm : lookupG k m with
      | some b =>
        have hk : hasKey (keyF x) m = true := by
          rw [hx, hasKey_iff_lookupG, hm]; rfl
        have : lookupG k (insertG keyF mk add m x) = some (add b x) := by
          unfold insertG
          rw [if_pos hk, hx, lookupG_updateG_self, hm]
          rfl
        rw [this]
        simp [List.foldl_cons]
      | none =>
        have hk : ¬ hasKey (keyF x) m = true := by
          rw [hx, hasKey_iff_lookupG, hm]; simp
        have : lookupG k (insertG keyF mk add m x) = some (add (mk x) x) := by
          unfold insertG
          rw [if_neg hk, lookupG_append, hm, hx]
          rw [lookupG_cons]
          simp
        rw [this]
    · have hfil : (x :: xs).filter (fun x => keyF x = k)
          = xs.filter (fun x => keyF x = k) := by
        simp [List.filter, hx]
      rw [hfil, lookupG_insertG_ne keyF mk add hx]

theorem hasKey_iff_mem_keysOf {β : Type} (k : String) (m : List (String × β)) :
    hasKey k m = true ↔ k ∈ keysOf m := by
  simp [hasKey, keysOf, List.any_eq_true, List.mem_map, decide_eq_true_eq]

theorem keysOf_cons {β : Type} (p : String × β) (m : List (String × β)) :
    keysOf (p :: m) = p.1 :: keysOf m := rfl

theorem keysOf_updateG {β : Type} (k : String) (f : β → β) (m : List (String × β)) :
    keysOf (updateG k f m) = keysOf m := by
  induction m with
  | nil => rfl
  | cons p m ih =>
    by_cases h : p.1 = k
    · simp only [updateG, List.map_cons, if_pos h]
      rw [keysOf_cons, keysOf_cons]
      exact congrArg (p.1 :: ·) (by simpa [updateG] using ih)
    · simp only [updateG, List.map_cons, if_neg h]
      rw [keysOf_cons, keysOf_cons]
      exact congrArg (p.1 :: ·) (by simpa [updateG] using ih)

theorem keysOf_insertG {α β : Type} (keyF : α → String) (mk : α → β)
    (add : β → α → β) (m : List (String × β)) (x : α) :
    keysOf (insertG keyF mk add m x)
      = if hasKey (keyF x) m then keysOf m else keysOf m ++ [keyF x] := by
  unfold insertG
  by_cases h : hasKey (keyF x) m
  · rw [if_pos h, if_pos h, keysOf_updateG]
  · rw [if_neg h, if_neg h]
    simp [keysOf]

theorem keysOf_groupFold_nodup {α β : Type} (keyF : α → String) (mk : α → β)
    (add : β → α → β) (xs : List α) (m : List (String × β))
    (hm : (keysOf m).Nodup) :
    (keysOf (groupFold keyF mk add m xs)).Nodup := by
  induction xs generalizing m with
  | nil => exact hm
  | cons x xs ih =>
    have hstep : groupFold keyF mk add m (x :: xs)
        = groupFold keyF mk add (insertG keyF mk add m x) xs := rfl
    rw [hstep]
    apply ih
    rw [keysOf_insertG]
    by_cases h : hasKey (keyF x) m
    · rw [if_pos h]; exact hm
    · rw [if_neg h]
      have hnot : keyF x ∉ keysOf m := by
        intro hmem
        exact h ((hasKey_iff_mem_keysOf _ _).2 hmem)
      simpa [List.nodup_append] using ⟨hm, hnot⟩

theorem mem_lookupG {β : Type} {k : String} {b : β} {m : List (String × β)}
    (hm : (keysOf m).Nodup) (hmem : (k, b) ∈ m) : lookupG k m = some b := by
  induction m with
  | nil => cases hmem
  | cons p m ih =>
    rw [lookupG_cons]
    have hm2 : (p.1 :: keysOf m).Nodup := by rw [← keysOf_cons]; exact hm
    rcases List.mem_cons.1 hmem with he | hmem2
    · rw [← he]; simp
    · have hp : ¬ p.1 = k := by
        intro hpk
        have hkm : k ∈ keysOf m := List.mem_map.2 ⟨(k, b), hmem2, rfl⟩
        have := (List.nodup_cons.1 hm2).1
        rw [hpk] at this
        exact this hkm
      rw [if_neg hp]
      exact ih (List.nodup_cons.1 hm2).2 hmem2

/-- An additive measure distributes over `List.foldl add`. -/
theorem foldl_add_measure {α β : Type} (add : β → α → β) (f : β → ℚ) (g : α → ℚ)
    (hadd : ∀ b a, f (add b a) = f b + g a) :
    ∀ (l : List α) (b : β), f (l.foldl add b) = f b + (l.map g).sum := by
  intro l
  induction l with
  | nil => intro b; simp
  | cons a l ih =>
    intro b
    rw [List.foldl_cons, ih, hadd]
    simp [List.map_cons, List.sum_cons]
    ring

/-- A union-like membership measure distributes over `List.foldl add`. -/
theorem foldl_mem_measure {α β : Type} (add : β → α → β) (h : β → List String)
    (h2 : α → List String)
    (hadd : ∀ b a s, s ∈ h (add b a) ↔ s ∈ h b ∨ s ∈ h2 a) :
    ∀ (l : List α) (b : β) (s : String),
      s ∈ h (l.foldl add b) ↔ s ∈ h b ∨ ∃ a ∈ l, s ∈ h2 a := by
  intro l
  induction l with
  | nil => intro b s; simp
  | cons a l ih =>
    intro b s
    rw [List.foldl_cons, ih, hadd]
    constructor
    · rintro (⟨hb | ha⟩ | ⟨a2, ha2, hs⟩)
      · exact Or.inl hb
      · exact Or.inr ⟨a, List.mem_cons_self _ _, ha⟩
      · exact Or.inr ⟨a2, List.mem_cons_of_mem _ ha2, hs⟩
    · rintro (hb | ⟨a2, ha2, hs⟩)
      · exact Or.inl (Or.inl hb)
      · rcases List.mem_cons.1 ha2 with he | hm
        · exact Or.inl (Or.inr (he ▸ hs))
        · exact Or.inr ⟨a2, hm, hs⟩

/-- Preservation of a list-valued invariant (for example `Nodup`) along a fold. -/
theorem foldl_pres {α β : Type} (add : β → α → β) (P : β → Prop)
    (hadd : ∀ b a, P b → P (add b a)) :
    ∀ (l : List α) (b : β), P b → P (l.foldl add b) := by
  intro l
  induction l with
  | nil => intro b hb; exact hb
  | cons a l ih => intro b hb; exact ih _ (hadd _ _ hb)

theorem unionInto_mem (xs new : List String) (a : String) :
    a ∈ unionInto xs new ↔ a ∈ xs ∨ a ∈ new := by
  induction new generalizing xs with
  | nil => simp [unionInto]
  | cons b new ih =>
    have hstep : unionInto xs (b :: new)
        = unionInto (if xs.contains b then xs else xs ++ [b]) new := rfl
    rw [hstep, ih]
    by_cases hb : xs.contains b
    · have hbm : b ∈ xs := by simpa using hb
      simp only [if_pos hb, List.mem_cons]
      constructor
      · tauto
      · rintro (h | h | h)
        · exact Or.inl h
        · exact Or.inl (h ▸ hbm)
        · exact Or.inr h
    · simp only [if_neg hb, List.mem_append, List.mem_cons, List.not_mem_nil, or_false,
        List.mem_singleton]
      tauto

theorem unionInto_nodup (xs new : List String) (hx : xs.Nodup) :
    (unionInto xs new).Nodup := by
  induction new generalizing xs with
  | nil => exact hx
  | cons b new ih =>
    have hstep : unionInto xs (b :: new)
        = unionInto (if xs.contains b then xs else xs ++ [b]) new := rfl
    rw [hstep]
    by_cases hb : xs.contains b
    · rw [if_pos hb]; exact ih xs hx
    · rw [if_neg hb]
      apply ih
      have hbm : b ∉ xs := by simpa using hb
      simpa [List.nodup_append] using ⟨hx, hbm⟩

/-! ### Fold-max characterization (for the account-count propagation) -/

theorem foldl_max_ub (l : List ℕ) (n : ℕ) :
    n ≤ l.foldl max n ∧ ∀ x ∈ l, x ≤ l.foldl max n := by
  induction l generalizing n with
  | nil => simp
  | cons a l ih =>
    rw [List.foldl_cons]
    rcases ih (max n a) with ⟨h1, h2⟩
    refine ⟨le_trans (le_max_left _ _) h1, ?_⟩
    intro x hx
    rcases List.mem_cons.1 hx with rfl | hm
    · exact le_trans (le_max_right _ _) h1
    · exact h2 x hm

theorem foldl_max_mem (l : List ℕ) (n : ℕ) :
    l.foldl max n = n ∨ l.foldl max n ∈ l := by
  induction l generalizing n with
  | nil => simp
  | cons a l ih =>
    rw [List.foldl_cons]
    rcases ih (max n a) with h | h
    · rcases max_cases n a with ⟨he, _⟩ | ⟨he, _⟩
      · exact Or.inl (by rw [h, he])
      · exact Or.inr (by rw [h, he]; exact List.mem_cons_self _ _)
    · exact Or.inr (List.mem_cons_of_mem _ h)

theorem wreach_invariant {c : WCfg} (h : WReach c) :
    c.inFlight ≤ 1 ∧ (c.running = false → c.inFlight = 0) := by
  induction h with
  | init => exact ⟨by simp, fun _ => rfl⟩
  | step _ hs ih =>
    rcases ih with ⟨ih1, ih2⟩
    cases hs with
    | tickNoopRunning hr => exact ⟨ih1, ih2⟩
    | tickNoopUser hu => exact ⟨ih1, ih2⟩
    | tickStart hr hu =>
      have h0 := ih2 hr
      refine ⟨?_, ?_⟩
      · dsimp only; omega
      · intro hh; simp at hh
    | tickEnd hp => refine ⟨?_, fun _ => ?_⟩ <;> (dsimp only; omega)
    | manualNoop hr => exact ⟨ih1, ih2⟩
    | manualStart hr =>
      have h0 := ih2 hr
      refine ⟨?_, ?_⟩
      · dsimp only; omega
      · intro hh; simp at hh
    | manualEnd hp => refine ⟨?_, fun _ => ?_⟩ <;> (dsimp only; omega)

/-! ### Claim theorems -/

/-- C1: the claim says a `manualRefresh` call made while no worker pass is in
flight performs the fetch-and-store and returns a success outcome with the
refreshed counts.  The code contradicts this: `manualRefresh` sets
`userRequestInProgress` before calling `fetchAndStoreDay`, whose first guard
returns `null` exactly when that flag is set, so the fetch never happens, the
success branch dereferences `null`, and the catch block returns a failure
outcome — for every fetch oracle and store, with both flags initially clear,
the call returns `success: false` and leaves the store untouched. -/
theorem manualRefresh_never_fetches (fetch : FetchOracle) (st : Store)
    (now u d : ℕ) (dim : String) :
    manualRefresh ⟨false, false⟩ fetch st now u d dim =
      ({ success := false, error := some nullDataMsg
         domains := none, accounts := none, total_accounts := none },
       ⟨false, false⟩, st) := rfl

/-- C8: single-flight discipline of the worker.  (1) In the interleaving
model no reachable configuration has more than one pass in flight.  (2) A
tick that arrives while `workerRunning` is set is a no-op, (3) as is a tick
while `userRequestInProgress` is set.  (4) Any pass that starts clears
`workerRunning` on exit whatever its body does.  (5) A `manualRefresh`
arriving while `workerRunning` is set returns a failure outcome immediately
without touching the flags or the store, and (6) a non-blocked
`manualRefresh` also leaves `workerRunning` clear on exit. -/
theorem worker_single_flight (c : WCfg) (hc : WReach c)
    (s srun : WState) (body : Except String Unit)
    (fetch : FetchOracle) (st : Store) (now u d : ℕ) (dim : String)
    (hrun : srun.workerRunning = true) :
    c.inFlight ≤ 1
    ∧ runSmartWorker srun body = (false, srun)
    ∧ (s.userRequestInProgress = true → runSmartWorker s body = (false, s))
    ∧ (s.workerRunning = false → ((runSmartWorker s body).2).workerRunning = false)
    ∧ manualRefresh srun fetch st now u d dim =
        ({ success := false, error := some ("Worker is already running. Please wait.")
           domains := none, accounts := none, total_accounts := none }, srun, st)
    ∧ (s.workerRunning = false →
        ((manualRefresh s fetch st now u d dim).2.1).workerRunning = false
        ∧ ((manualRefresh s fetch st now u d dim).2.1).userRequestInProgress = false) := by
  refine ⟨(wreach_invariant hc).1, ?_, ?_, ?_, ?_, ?_⟩
  · simp [runSmartWorker, hrun]
  · intro hu
    by_cases hw : s.workerRunning
    · simp [runSmartWorker, hw]
    · simp [runSmartWorker, hw, hu]
  · intro hw
    by_cases hu : s.userRequestInProgress
    · simp [runSmartWorker, hw, hu]
    · cases body <;> simp [runSmartWorker, hw, hu]
  · simp [manualRefresh, hrun]
  · intro hw
    unfold manualRefresh
    rw [if_neg (by rw [hw]; exact Bool.false_ne_true)]
    rcases hfs : fetchAndStoreDay ⟨true, true⟩ fetch st now u d dim with e | p
    · simp [hfs]
    · rcases p with ⟨r, st2⟩
      cases r <;> simp [hfs]

/-- C10: with the hot tier down — whether the client is in its failing state
(every operation throws) or Redis is disabled after exhausting reconnects —
`getCachedData` still serves exactly the durable-tier value (or absent) and
`setCachedData` still performs the durable-tier write; the failing hot-tier
write is absorbed, leaving the hot tier unchanged, and no hot-tier error
reaches the caller. -/
theorem tieredCache_degrades {V : Type} (R R2 : RedisSt V) (db : SqliteCache V)
    (now userId startDate endDate : ℕ) (dim : String) (v : V) (ttl : ℕ)
    (hfail : R.failing = true) (hdis : R2.enabled = false) :
    (getCachedData R db now userId startDate endDate dim).1
      = getFromSQLite db now userId (generateCacheKey userId startDate endDate dim)
    ∧ (setCachedData R db now userId startDate endDate dim v ttl).2
      = saveToSQLite db now userId (generateCacheKey userId startDate endDate dim)
          v startDate endDate dim ttl
    ∧ (setCachedData R db now userId startDate endDate dim v ttl).1 = R
    ∧ (getCachedData R2 db now userId startDate endDate dim).1
      = getFromSQLite db now userId (generateCacheKey userId startDate endDate dim)
    ∧ (setCachedData R2 db now userId startDate endDate dim v ttl).2
      = saveToSQLite db now userId (generateCacheKey userId startDate endDate dim)
          v startDate endDate dim ttl
    ∧ (setCachedData R2 db now userId startDate endDate dim v ttl).1 = R2 := by
  have hredis : ∀ k, getFromRedis R k = none := by
    intro k
    unfold getFromRedis
    by_cases he : ¬ R.enabled ∨ ¬ R.connected
    · rw [if_pos he]
    · rw [if_neg he]
      unfold redisGet
      rw [if_pos hfail]
  have hsave : ∀ k w, saveToRedis R k w = R := by
    intro k w
    unfold saveToRedis
    by_cases he : ¬ R.enabled ∨ ¬ R.connected
    · rw [if_pos he]
    · rw [if_neg he]
      unfold redisSetEx
      rw [if_pos hfail]
  have hredis2 : ∀ k, getFromRedis R2 k = none := by
    intro k
    unfold getFromRedis
    rw [if_pos (Or.inl (by rw [hdis]; exact Bool.false_ne_true))]
  have hsave2 : ∀ k w, saveToRedis R2 k w = R2 := by
    intro k w
    unfold saveToRedis
    rw [if_pos (Or.inl (by rw [hdis]; exact Bool.false_ne_true))]
  refine ⟨?_, rfl, hsave _ _, ?_, rfl, hsave2 _ _⟩
  · unfold getCachedData
    simp only [hredis]
    cases hq : getFromSQLite db now userId
      (generateCacheKey userId startDate endDate dim) <;> simp [hq]
  · unfold getCachedData
    simp only [hredis2]
    cases hq : getFromSQLite db now userId
      (generateCacheKey userId startDate endDate dim) <;> simp [hq]

/-! Support lemmas for the range-read claim. -/

theorem getRangeData_any_date (st : Store) (u s e d : ℕ) (dim : String) :
    ((getRangeData st u s e dim).any (fun de => de.date = d) = true)
      ↔ d ∈ rangeDates s e ∧ (st u d dim).isSome := by
  unfold getRangeData
  rw [List.any_eq_true]
  constructor
  · rintro ⟨de, hde, hdd⟩
    rw [List.mem_filterMap] at hde
    rcases hde with ⟨d2, hd2, hf⟩
    rcases hsd : st u d2 dim with _ | sd
    · rw [hsd] at hf; cases hf
    · rw [hsd] at hf
      simp only [Option.map_some', Option.some.injEq] at hf
      have hdate : de.date = d2 := by rw [← hf]
      have hd2d : d2 = d := by
        have := of_decide_eq_true hdd
        rw [← hdate]; exact this.symm ▸ rfl
      rw [← hd2d]
      exact ⟨hd2, by rw [hsd]; rfl⟩
  · rintro ⟨hd, hsome⟩
    rcases hq : st u d dim with _ | sd
    · rw [hq] at hsome; cases hsome
    · refine ⟨⟨d, sd.data, sd.updated_at⟩, ?_, by simp⟩
      rw [List.mem_filterMap]
      exact ⟨d, hd, by rw [hq]; rfl⟩

theorem aggregateDays_isSome_of_ne_nil (l : List DayEntry) (h : l ≠ []) :
    (aggregateDays l).isSome := by
  match l with
  | [] => exact absurd rfl h
  | [de] => rfl
  | a :: b :: t => rfl

/-- C2: a multi-day range read succeeds exactly when every date of the range
has a stored record, and as soon as one date is missing the whole read
reports a miss (no partial aggregate is ever returned). -/
theorem getDataForRange_all_or_nothing (st : Store) (u s e : ℕ) (dim : String)
    (h : s < e) :
    ((getDataForRange st u s e dim).isSome
      ↔ ∀ d ∈ rangeDates s e, (st u d dim).isSome)
    ∧ ((∃ d ∈ rangeDates s e, st u d dim = none) →
        getDataForRange st u s e dim = none) := by
  have hne : s ≠ e := Nat.ne_of_lt h
  unfold getDataForRange
  rw [if_neg hne]
  have hmissing_iff :
      (rangeDates s e).filter
          (fun d => !((getRangeData st u s e dim).any (fun de => de.date = d))) = []
        ↔ ∀ d ∈ rangeDates s e, (st u d dim).isSome := by
    rw [List.filter_eq_nil_iff]
    constructor
    · intro hall d hd
      have h2 := hall d hd
      simp only [Bool.not_eq_true', Bool.not_eq_false] at h2
      exact ((getRangeData_any_date st u s e d dim).1 h2).2
    · intro hall d hd
      have h2 := (getRangeData_any_date st u s e d dim).2 ⟨hd, hall d hd⟩
      simp [h2]
  constructor
  · constructor
    · intro hsome
      by_cases hmiss : (rangeDates s e).filter
          (fun d => !((getRangeData st u s e dim).any (fun de => de.date = d))) = []
      · exact hmissing_iff.1 hmiss
      · rw [if_pos hmiss] at hsome
        cases hsome
    · intro hall
      have hmiss := hmissing_iff.2 hall
      rw [if_neg (fun hc => hc hmiss)]
      apply aggregateDays_isSome_of_ne_nil
      intro hnil
      have hs_mem : s ∈ rangeDates s e := by
        rw [rangeDates, List.mem_range'_1]
        omega
      have h1 := (getRangeData_any_date st u s e s dim).2 ⟨hs_mem, hall s hs_mem⟩
      rw [hnil] at h1
      cases h1
  · rintro ⟨d, hd, hnone⟩
    have hm : (rangeDates s e).filter
        (fun d => !((getRangeData st u s e dim).any (fun de => de.date = d))) ≠ [] := by
      intro hmiss
      have := hmissing_iff.1 hmiss d hd
      rw [hnone] at this
      cases this
    rw [if_pos hm]

/-! Support lemmas for the retry claim. -/

theorem gasGo_succ (acc : Account) (o : AttemptOracle) (fuel attempt : ℕ)
    (le : Option String) (ds : List ℕ) :
    gasGo acc o (fuel + 1) attempt le ds =
      (match o attempt with
      | AttemptOutcome.ok data => (successRecord acc data, ds, attempt)
      | AttemptOutcome.softFail e => gasGo acc o fuel (attempt + 1) (some e) ds
      | AttemptOutcome.exn is429 msg =>
        if is429 ∧ attempt < maxRetries then
          gasGo acc o fuel (attempt + 1) (some msg) (ds ++ [5000 * 2 ^ (attempt - 1)])
        else (failureRecord acc (some msg), ds, attempt)) := rfl

theorem gasGo_identity (acc : Account) (o : AttemptOracle) :
    ∀ (fuel attempt : ℕ) (le : Option String) (ds : List ℕ),
      ((gasGo acc o fuel attempt le ds).1.accountId = acc.id
      ∧ (gasGo acc o fuel attempt le ds).1.accountName = acc.account_name
      ∧ (gasGo acc o fuel attempt le ds).1.networkCode = acc.network_code
      ∧ ((gasGo acc o fuel attempt le ds).1.success = false →
          (gasGo acc o fuel attempt le ds).1.data = []
          ∧ ((gasGo acc o fuel attempt le ds).1.error).isSome)) := by
  intro fuel
  induction fuel with
  | zero =>
    intro attempt le ds
    exact ⟨rfl, rfl, rfl, fun _ => ⟨rfl, rfl⟩⟩
  | succ fuel ih =>
    intro attempt le ds
    rw [gasGo_succ]
    cases ho : o attempt with
    | ok data => simp [successRecord]
    | softFail e => exact ih (attempt + 1) (some e) ds
    | exn is429 msg =>
      by_cases hc : is429 = true ∧ attempt < maxRetries
      · dsimp only
        rw [if_pos hc]
        exact ih (attempt + 1) (some msg) (ds ++ [5000 * 2 ^ (attempt - 1)])
      · dsimp only
        rw [if_neg hc]
        exact ⟨rfl, rfl, rfl, fun _ => ⟨rfl, rfl⟩⟩

/-- C6: on persistent 429 rate-limit signals the per-account fetch makes
exactly the configured three attempts, sleeping the doubling backoff delays
5000ms and 10000ms before the two retries, and then returns the structured
failure record with the last error and empty data; a non-429 thrown error
stops after the attempt that raised it with the same structured failure; and
for every oracle the settled result keeps the account identity and a failed
result carries empty data and an error, so the call never throws. -/
theorem getAccountStatistics_retry (acc : Account) (oracle oracle2 : AttemptOracle)
    (msgs : ℕ → String) (msg : String)
    (h429 : ∀ i, oracle i = AttemptOutcome.exn true (msgs i))
    (hother : oracle2 1 = AttemptOutcome.exn false msg) :
    getAccountStatistics acc oracle = (failureRecord acc (some (msgs 3)), [5000, 10000], 3)
    ∧ getAccountStatistics acc oracle2 = (failureRecord acc (some msg), [], 1)
    ∧ ∀ o : AttemptOracle,
        (getAccountStatistics acc o).1.accountId = acc.id
        ∧ (getAccountStatistics acc o).1.accountName = acc.account_name
        ∧ (getAccountStatistics acc o).1.networkCode = acc.network_code
        ∧ ((getAccountStatistics acc o).1.success = false →
            (getAccountStatistics acc o).1.data = []
            ∧ ((getAccountStatistics acc o).1.error).isSome) := by
  refine ⟨?_, ?_, fun o => gasGo_identity acc o maxRetries 1 none []⟩
  · show gasGo acc oracle (2 + 1) 1 none [] = _
    rw [gasGo_succ, h429 1]
    dsimp only
    rw [if_pos ⟨rfl, by norm_num [maxRetries]⟩]
    show gasGo acc oracle (1 + 1) 2 (some (msgs 1)) [5000] = _
    rw [gasGo_succ, h429 2]
    dsimp only
    rw [if_pos ⟨rfl, by norm_num [maxRetries]⟩]
    show gasGo acc oracle (0 + 1) 3 (some (msgs 2)) [5000, 10000] = _
    rw [gasGo_succ, h429 3]
    dsimp only
    rw [if_neg (by norm_num [maxRetries])]
  · show gasGo acc oracle2 (2 + 1) 1 none [] = _
    rw [gasGo_succ, hother]
    dsimp only
    rw [if_neg (by simp)]

/-! Support lemmas for the fan-out claim. -/

theorem zip_filterMap_failures (accounts : List Account)
    (fetch : Account → AccountResult) :
    (accounts.zip (accounts.map fetch)).filterMap
        (fun p => if p.2.success then none else some (failEntry p.1 p.2))
      = (accounts.filter (fun a => !(fetch a).success)).map
          (fun a => failEntry a (fetch a)) := by
  induction accounts with
  | nil => rfl
  | cons a t ih =>
    simp only [List.map_cons, List.zip_cons_cons, List.filterMap_cons, List.filter_cons]
    cases hs : (fetch a).success <;> simp [hs, ih]

theorem filter_success_map (accounts : List Account)
    (fetch : Account → AccountResult) :
    (accounts.map fetch).filter (fun r => r.success)
      = (accounts.filter (fun a => (fetch a).success)).map fetch := by
  induction accounts with
  | nil => rfl
  | cons a t ih =>
    simp only [List.map_cons, List.filter_cons]
    cases hs : (fetch a).success <;> simp [hs, ih]

theorem length_filter_bool_add {α : Type} (l : List α) (p : α → Bool) :
    (l.filter p).length + (l.filter (fun a => !(p a))).length = l.length := by
  induction l with
  | nil => rfl
  | cons a t ih =>
    simp only [List.filter_cons]
    cases hp : p a <;> simp [hp] <;> omega

/-- C7: the multi-account read never turns per-account failures into a
failed request.  A failing account enumeration is the only input producing
the error response; an empty account list returns the early success; for a
nonempty account list the response reports success with the aggregate of the
successful accounts, the total account count, the number of successes, the
number of failures, and a structured errors list holding exactly the failed
accounts (absent when none failed); successes and failures always partition
the account list. -/
theorem getMulti_partial_failures (rates : Rates) (accounts : List Account)
    (fetch : Account → AccountResult) (dimensionType e : String)
    (hne : accounts ≠ []) :
    getMultiAccountStatistics rates (Except.error e) fetch dimensionType
      = MultiResponse.serverError e
    ∧ getMultiAccountStatistics rates (Except.ok []) fetch dimensionType
      = MultiResponse.emptyAccounts
    ∧ (getMultiAccountStatistics rates (Except.ok accounts) fetch dimensionType).isSuccess
      = true
    ∧ getMultiAccountStatistics rates (Except.ok accounts) fetch dimensionType
      = MultiResponse.ok
          (aggregateMetrics rates
            ((accounts.filter (fun a => (fetch a).success)).map fetch) dimensionType)
          accounts.length
          (accounts.filter (fun a => (fetch a).success)).length
          (accounts.filter (fun a => !(fetch a).success)).length
          (if accounts.filter (fun a => !(fetch a).success) = [] then none
           else some ((accounts.filter (fun a => !(fetch a).success)).map
             (fun a => failEntry a (fetch a))))
    ∧ (accounts.filter (fun a => (fetch a).success)).length
        + (accounts.filter (fun a => !(fetch a).success)).length
        = accounts.length := by
  have hlen0 : ¬ accounts.length = 0 := by
    intro hh
    exact hne (List.length_eq_zero.1 hh)
  refine ⟨rfl, rfl, ?_, ?_, length_filter_bool_add accounts _⟩
  · unfold getMultiAccountStatistics
    dsimp only
    rw [if_neg hlen0]
    rfl
  · unfold getMultiAccountStatistics
    dsimp only
    rw [if_neg hlen0]
    rw [zip_filterMap_failures, filter_success_map]
    have hlenmap : ((accounts.filter (fun a => (fetch a).success)).map fetch).length
        = (accounts.filter (fun a => (fetch a).success)).length := List.length_map _ _
    rw [hlenmap]
    cases hfail : accounts.filter (fun a => !(fetch a).success) with
    | nil => simp
    | cons b t => simp

/-! Corollaries of the grouping lemma used to characterize the two
aggregators. -/

theorem groupFold_append {α β : Type} (keyF : α → String) (mk : α → β)
    (add : β → α → β) (m : List (String × β)) (xs ys : List α) :
    groupFold keyF mk add m (xs ++ ys)
      = groupFold keyF mk add (groupFold keyF mk add m xs) ys :=
  List.foldl_append _ _ _ _

theorem group_filter_shape {α β : Type} (keyF : α → String) (mk : α → β)
    (add : β → α → β) (xs : List α) (k : String) (b : β)
    (h : lookupG k (groupFold keyF mk add ([] : List (String × β)) xs) = some b) :
    ∃ y ys, xs.filter (fun x => keyF x = k) = y :: ys
      ∧ b = ys.foldl add (add (mk y) y) := by
  rw [lookupG_groupFold] at h
  simp only [lookupG_nil] at h
  cases hfil : xs.filter (fun x => keyF x = k) with
  | nil => rw [hfil] at h; cases h
  | cons y ys =>
    rw [hfil] at h
    refine ⟨y, ys, rfl, ?_⟩
    have := Option.some.inj h
    exact this.symm

theorem group_measure_sum {α β : Type} (keyF : α → String) (mk : α → β)
    (add : β → α → β) (f : β → ℚ) (g : α → ℚ)
    (hadd : ∀ b a, f (add b a) = f b + g a) (hmk : ∀ a, f (mk a) = 0)
    (xs : List α) (k : String) (b : β)
    (h : lookupG k (groupFold keyF mk add ([] : List (String × β)) xs) = some b) :
    f b = ((xs.filter (fun x => keyF x = k)).map g).sum := by
  rcases group_filter_shape keyF mk add xs k b h with ⟨y, ys, hfil, hb⟩
  rw [hfil, hb, foldl_add_measure add f g hadd, hadd, hmk, List.map_cons, List.sum_cons]
  ring

theorem group_measure_mem {α β : Type} (keyF : α → String) (mk : α → β)
    (add : β → α → β) (h : β → List String) (h2 : α → List String)
    (hadd : ∀ b a s, s ∈ h (add b a) ↔ s ∈ h b ∨ s ∈ h2 a)
    (hmk : ∀ a s, s ∈ h (mk a) ↔ s ∈ h2 a)
    (xs : List α) (k : String) (b : β)
    (hb : lookupG k (groupFold keyF mk add ([] : List (String × β)) xs) = some b)
    (s : String) :
    s ∈ h b ↔ ∃ x ∈ xs.filter (fun x => keyF x = k), s ∈ h2 x := by
  rcases group_filter_shape keyF mk add xs k b hb with ⟨y, ys, hfil, hb2⟩
  rw [hfil, hb2, foldl_mem_measure add h h2 hadd, hadd, hmk]
  constructor
  · rintro (⟨hy | hy⟩ | ⟨a, ha, hs⟩)
    · exact ⟨y, List.mem_cons_self _ _, hy⟩
    · exact ⟨y, List.mem_cons_self _ _, hy⟩
    · exact ⟨a, List.mem_cons_of_mem _ ha, hs⟩
  · rintro ⟨x, hx, hs⟩
    rcases List.mem_cons.1 hx with rfl | hxs
    · exact Or.inl (Or.inl hs)
    · exact Or.inr ⟨x, hxs, hs⟩

theorem group_nodup {α β : Type} (keyF : α → String) (mk : α → β)
    (add : β → α → β) (h : β → List String)
    (hpres : ∀ b a, (h b).Nodup → (h (add b a)).Nodup)
    (xs : List α) (k : String) (b : β)
    (hb : lookupG k (groupFold keyF mk add ([] : List (String × β)) xs) = some b)
    (hrows : ∀ x ∈ xs, (h (mk x)).Nodup) :
    (h b).Nodup := by
  rcases group_filter_shape keyF mk add xs k b hb with ⟨y, ys, hfil, hb2⟩
  have hy : y ∈ xs := by
    have : y ∈ xs.filter (fun x => keyF x = k) := by
      rw [hfil]; exact List.mem_cons_self _ _
    exact (List.mem_filter.1 this).1
  rw [hb2]
  exact foldl_pres add (fun b => (h b).Nodup) hpres ys _
    (hpres _ _ (hrows y hy))

theorem lookupG_groupFold_exists {α β : Type} (keyF : α → String) (mk : α → β)
    (add : β → α → β) (xs : List α) (k : String) :
    (lookupG k (groupFold keyF mk add ([] : List (String × β)) xs)).isSome
      ↔ ∃ x ∈ xs, keyF x = k := by
  rw [lookupG_groupFold]
  simp only [lookupG_nil]
  cases hfil : xs.filter (fun x => keyF x = k) with
  | nil =>
    simp only [Option.isSome_none, Bool.false_eq_true, false_iff]
    rintro ⟨x, hx, hk⟩
    have : x ∈ xs.filter (fun x => keyF x = k) :=
      List.mem_filter.2 ⟨hx, decide_eq_true hk⟩
    rw [hfil] at this
    cases this
  | cons y ys =>
    simp only [Option.isSome_some, true_iff]
    have hy : y ∈ xs.filter (fun x => keyF x = k) := by
      rw [hfil]; exact List.mem_cons_self _ _
    exact ⟨y, (List.mem_filter.1 hy).1, of_decide_eq_true (List.mem_filter.1 hy).2⟩

/-! Decomposition of the aggregateMetrics fold into its map and totals. -/

theorem mAggState_m (rates : Rates) (accountsData : List AccountResult)
    (dimensionType : String) :
    (mAggState rates accountsData dimensionType).m
      = groupFold (mKeyF dimensionType) mMk mAdd [] (mPairs accountsData) := by
  have hgen : ∀ (pairs : List (AccountResult × MRow)) (st : MAggSt),
      (pairs.foldl (mStep rates dimensionType) st).m
        = groupFold (mKeyF dimensionType) mMk mAdd st.m pairs := by
    intro pairs
    induction pairs with
    | nil => intro st; rfl
    | cons p t ih =>
      intro st
      rw [List.foldl_cons]
      exact ih (mStep rates dimensionType st p)
  exact hgen (mPairs accountsData) ⟨[], 0, 0, 0, 0⟩

theorem mAggState_tImp (rates : Rates) (accountsData : List AccountResult)
    (dimensionType : String) :
    (mAggState rates accountsData dimensionType).tImp
      = ((mPairs accountsData).map (fun p => p.2.impressions)).sum := by
  have := foldl_add_measure (mStep rates dimensionType) (fun st => st.tImp)
    (fun p => p.2.impressions) (fun _ _ => rfl) (mPairs accountsData) ⟨[], 0, 0, 0, 0⟩
  simpa [mAggState] using this

theorem mAggState_tClk (rates : Rates) (accountsData : List AccountResult)
    (dimensionType : String) :
    (mAggState rates accountsData dimensionType).tClk
      = ((mPairs accountsData).map (fun p => p.2.clicks)).sum := by
  have := foldl_add_measure (mStep rates dimensionType) (fun st => st.tClk)
    (fun p => p.2.clicks) (fun _ _ => rfl) (mPairs accountsData) ⟨[], 0, 0, 0, 0⟩
  simpa [mAggState] using this

theorem mAggState_tRev (rates : Rates) (accountsData : List AccountResult)
    (dimensionType : String) :
    (mAggState rates accountsData dimensionType).tRev
      = ((mPairs accountsData).map
          (fun p => convertToUSD rates p.2.revenue (curOf p.1))).sum := by
  have := foldl_add_measure (mStep rates dimensionType) (fun st => st.tRev)
    (fun p => convertToUSD rates p.2.revenue (curOf p.1)) (fun _ _ => rfl)
    (mPairs accountsData) ⟨[], 0, 0, 0, 0⟩
  simpa [mAggState] using this

theorem mAggState_tUnf (rates : Rates) (accountsData : List AccountResult)
    (dimensionType : String) :
    (mAggState rates accountsData dimensionType).tUnf
      = ((mPairs accountsData).map (fun p => p.2.unfilled_impressions)).sum := by
  have := foldl_add_measure (mStep rates dimensionType) (fun st => st.tUnf)
    (fun p => p.2.unfilled_impressions) (fun _ _ => rfl)
    (mPairs accountsData) ⟨[], 0, 0, 0, 0⟩
  simpa [mAggState] using this

/-- C4: in the cross-account aggregation each group row sums the
contributing rows' revenues in their original amounts (no conversion), while
the global totals' revenue is the sum of every contributing row's revenue
converted to USD through the rate table; on the spec's concrete example the
per-row breakdown keeps 100 EUR and 50 USD unmodified and the global total
revenue equals 168. -/
theorem aggregateMetrics_currency (rates : Rates)
    (accountsData : List AccountResult) (dimensionType k : String) (g : MRow)
    (hk : lookupG k (mAggState rates accountsData dimensionType).m = some g) :
    (aggregateMetrics rates accountsData dimensionType).totals.revenue
      = ((mPairs accountsData).map
          (fun p => convertToUSD rates p.2.revenue (curOf p.1))).sum
    ∧ g.revenue
      = (((mPairs accountsData).filter (fun p => mKeyF dimensionType p = k)).map
          (fun p => p.2.revenue)).sum
    ∧ ((aggregateMetrics exRates [exAccEUR, exAccUSD] ("AD_UNIT")).data.map
        (fun r => (r.revenue, r.original_currency)))
      = [(100, some ("EUR")), (50, some ("USD"))]
    ∧ (aggregateMetrics exRates [exAccEUR, exAccUSD] ("AD_UNIT")).totals.revenue
      = 168 := by
  refine ⟨?_, ?_, ?_, ?_⟩
  case refine_3 =>
    simp [aggregateMetrics, mAggState, mPairs, mStep, insertG, hasKey, updateG, lookupG,
      mKeyF, mKey, mMk, mAdd, newMGroup, addMRow, finishMRow, curOf, jsOr, jsOrOpt,
      exRates, exRowEUR, exRowUSD, exAccEUR, exAccUSD, transformRow, convertToUSD,
      groupFold]
  case refine_4 =>
    norm_num [aggregateMetrics, mAggState, mPairs, mStep, insertG, hasKey, updateG,
      lookupG, mKeyF, mKey, mMk, mAdd, newMGroup, addMRow, finishMRow, curOf, jsOr,
      jsOrOpt, exRates, exRowEUR, exRowUSD, exAccEUR, exAccUSD, transformRow,
      convertToUSD, groupFold]
    rw [if_neg (by simp), if_pos (by simp)]
    norm_num
  · have h1 : (aggregateMetrics rates accountsData dimensionType).totals.revenue
        = (mAggState rates accountsData dimensionType).tRev := rfl
    rw [h1, mAggState_tRev]
  · rw [mAggState_m] at hk
    exact group_measure_sum (mKeyF dimensionType) mMk mAdd
      (fun r => r.revenue) (fun p => p.2.revenue)
      (fun _ _ => rfl) (fun _ => rfl) (mPairs accountsData) k g hk

/-- C5: the claim says two rows of one account with different ad-unit names
map to different groups.  The code contradicts this: `transformReportData`
writes the ad-unit name into `adUnitName`, but the `aggregateMetrics` key
reads `row.ad_unit_name || row.name`, which is undefined on such rows, so
every named-dimension row of an account falls back to the key
`Unknown (account)`: the two rows below carry the distinct ad-unit names but
share one key and merge into a single aggregated row. -/
theorem aggregateMetrics_key_collapses :
    c5rowA.adUnitName = some ("alpha_unit")
    ∧ c5rowB.adUnitName = some ("beta_unit")
    ∧ c5rowA.adUnitName ≠ c5rowB.adUnitName
    ∧ mKeyF ("AD_UNIT") (c5acc, c5rowA) = "Unknown (Acct)"
    ∧ mKeyF ("AD_UNIT") (c5acc, c5rowB) = "Unknown (Acct)"
    ∧ (aggregateMetrics (fun _ => none) [c5acc] ("AD_UNIT")).data.length = 1 := by
  decide

/-- Evaluation rule for `round2` at a concrete rational. -/
theorem round2_eq (q : ℚ) (z : ℤ) (h1 : (z : ℚ) ≤ q * 100 + 1/2)
    (h2 : q * 100 + 1/2 < z + 1) : round2 q = z / 100 := by
  unfold round2
  have hf : ⌊q * 100 + 1/2⌋ = z := Int.floor_eq_iff.2 ⟨h1, h2⟩
  rw [hf]

/-- C9 counterexample: the claim asserts `active_view = pmr` also for the
totals produced by `aggregateMetrics`, but on a single row with
100 impressions and 50 unfilled impressions the code yields
`active_view = 50` and `pmr = 66.67`. -/
theorem activeView_pmr_counterexample :
    (aggregateMetrics (fun _ => none) [c9acc] ("AD_UNIT")).totals.active_view
      ≠ (aggregateMetrics (fun _ => none) [c9acc] ("AD_UNIT")).totals.pmr := by
  have hav : (aggregateMetrics (fun _ => none) [c9acc] ("AD_UNIT")).totals.active_view
      = round2 50 := by
    norm_num [aggregateMetrics, mAggState, mPairs, mStep, insertG, hasKey, updateG,
      lookupG, mKeyF, mKey, mMk, mAdd, newMGroup, addMRow, curOf, jsOr, jsOrOpt,
      c9acc, c9row, transformRow, convertToUSD, groupFold]
  have hpmr : (aggregateMetrics (fun _ => none) [c9acc] ("AD_UNIT")).totals.pmr
      = round2 (200 / 3) := by
    norm_num [aggregateMetrics, mAggState, mPairs, mStep, insertG, hasKey, updateG,
      lookupG, mKeyF, mKey, mMk, mAdd, newMGroup, addMRow, curOf, jsOr, jsOrOpt,
      c9acc, c9row, transformRow, convertToUSD, groupFold]
  have h50 : round2 50 = 50 := by
    rw [round2_eq 50 5000 (by norm_num) (by norm_num)]
    norm_num
  have h67 : round2 (200 / 3) = 6667 / 100 := by
    rw [round2_eq (200 / 3) 6667 (by norm_num) (by norm_num)]
    norm_num
  rw [hav, hpmr, h50, h67]
  norm_num

/-- C9 amended: the equality `active_view = pmr` holds for the totals
computed on the multi-day path of `aggregateDays`; `aggregateMetrics`
instead computes `pmr = impressions/(impressions+unfilled)*100` but
`active_view = (impressions-unfilled)/impressions*100` over its summed
totals, which differ in general. -/
theorem activeView_amended (ds : List DayEntry) (rep : Report) (rates : Rates)
    (accountsData : List AccountResult) (dimensionType : String)
    (hlen : 2 ≤ ds.length) (hagg : aggregateDays ds = some rep) :
    rep.totals.active_view = rep.totals.pmr
    ∧ (aggregateMetrics rates accountsData dimensionType).totals.pmr
      = (if ((mPairs accountsData).map (fun p => p.2.impressions)).sum
            + ((mPairs accountsData).map (fun p => p.2.unfilled_impressions)).sum > 0
         then round2 (((mPairs accountsData).map (fun p => p.2.impressions)).sum
            / (((mPairs accountsData).map (fun p => p.2.impressions)).sum
              + ((mPairs accountsData).map (fun p => p.2.unfilled_impressions)).sum) * 100)
         else 0)
    ∧ (aggregateMetrics rates accountsData dimensionType).totals.active_view
      = (if ((mPairs accountsData).map (fun p => p.2.impressions)).sum > 0
         then round2 ((((mPairs accountsData).map (fun p => p.2.impressions)).sum
            - ((mPairs accountsData).map (fun p => p.2.unfilled_impressions)).sum)
            / ((mPairs accountsData).map (fun p => p.2.impressions)).sum * 100)
         else 0) := by
  refine ⟨?_, ?_, ?_⟩
  · match ds with
    | [] => simp at hlen
    | [de] => simp at hlen
    | a :: b :: t =>
      have h2 : some (aggregateReport (a :: b :: t)) = some rep := hagg
      have h3 := Option.some.inj h2
      rw [← h3]
      rfl
  · have h1 : (aggregateMetrics rates accountsData dimensionType).totals.pmr
        = (if (mAggState rates accountsData dimensionType).tImp
              + (mAggState rates accountsData dimensionType).tUnf > 0
           then round2 ((mAggState rates accountsData dimensionType).tImp
              / ((mAggState rates accountsData dimensionType).tImp
                + (mAggState rates accountsData dimensionType).tUnf) * 100)
           else 0) := rfl
    rw [h1, mAggState_tImp, mAggState_tUnf]
  · have h1 : (aggregateMetrics rates accountsData dimensionType).totals.active_view
        = (if (mAggState rates accountsData dimensionType).tImp > 0
           then round2 (((mAggState rates accountsData dimensionType).tImp
              - (mAggState rates accountsData dimensionType).tUnf)
              / (mAggState rates accountsData dimensionType).tImp * 100)
           else 0) := rfl
    rw [h1, mAggState_tImp, mAggState_tUnf]

/-! Decomposition of the aggregateDays day loop. -/

theorem dayFold_domainMap (ds : List DayEntry) :
    ∀ st : DayAggSt, (ds.foldl dayStep st).domainMap
      = groupFold rowKey newGroup addRow st.domainMap (allRows ds) := by
  induction ds with
  | nil => intro st; rfl
  | cons de t ih =>
    intro st
    rw [List.foldl_cons]
    cases hd : de.data.data with
    | none =>
      have h1 : dayStep st de = st := by unfold dayStep; rw [hd]
      have h2 : allRows (de :: t) = allRows t := by
        unfold allRows; rw [List.flatMap_cons, hd]; rfl
      rw [h1, h2, ih]
    | some rows =>
      have h1 : (dayStep st de).domainMap
          = groupFold rowKey newGroup addRow st.domainMap rows := by
        unfold dayStep; rw [hd]
      have h2 : allRows (de :: t) = rows ++ allRows t := by
        unfold allRows; rw [List.flatMap_cons, hd]
      rw [ih (dayStep st de), h1, h2, groupFold_append]

theorem dayFold_counter (f : DayAggSt → ℕ) (g : DayEntry → ℕ)
    (hstep : ∀ (st : DayAggSt) (de : DayEntry) (rows : List GRow),
      de.data.data = some rows → f (dayStep st de) = max (f st) (g de))
    (ds : List DayEntry) (hdata : ∀ de ∈ ds, (de.data.data).isSome) :
    ∀ st : DayAggSt, f (ds.foldl dayStep st) = (ds.map g).foldl max (f st) := by
  induction ds with
  | nil => intro st; rfl
  | cons de t ih =>
    intro st
    have hd := hdata de (List.mem_cons_self _ _)
    rcases hsome : de.data.data with _ | rows
    · rw [hsome] at hd; cases hd
    · have hdt : ∀ x ∈ t, (x.data.data).isSome :=
        fun x hx => hdata x (List.mem_cons_of_mem _ hx)
      rw [List.foldl_cons, List.map_cons, List.foldl_cons,
        ih hdt (dayStep st de), hstep st de rows hsome]

theorem dayFold_allAccounts (ds : List DayEntry)
    (hdata : ∀ de ∈ ds, (de.data.data).isSome) :
    ∀ st : DayAggSt,
      ((ds.foldl dayStep st).allAccounts = st.allAccounts
        ∨ (ds.foldl dayStep st).allAccounts ∈ ds.map (fun de => de.data.accounts))
      ∧ st.allAccounts.length ≤ (ds.foldl dayStep st).allAccounts.length
      ∧ ∀ de ∈ ds, de.data.accounts.length
          ≤ (ds.foldl dayStep st).allAccounts.length := by
  induction ds with
  | nil =>
    intro st
    exact ⟨Or.inl rfl, le_refl _, by intro de h; cases h⟩
  | cons de t ih =>
    intro st
    have hd := hdata de (List.mem_cons_self _ _)
    rcases hsome : de.data.data with _ | rows
    · rw [hsome] at hd; cases hd
    · have hstep : (dayStep st de).allAccounts
          = if de.data.accounts.length > st.allAccounts.length
            then de.data.accounts else st.allAccounts := by
        unfold dayStep; rw [hsome]
      have hdt : ∀ x ∈ t, (x.data.data).isSome :=
        fun x hx => hdata x (List.mem_cons_of_mem _ hx)
      rw [List.foldl_cons]
      rcases ih hdt (dayStep st de) with ⟨hor, hle, hall⟩
      refine ⟨?_, ?_, ?_⟩
      · rcases hor with heq | hmem
        · rw [heq, hstep]
          by_cases hgt : de.data.accounts.length > st.allAccounts.length
          · rw [if_pos hgt]
            exact Or.inr (by rw [List.map_cons]; exact List.mem_cons_self _ _)
          · rw [if_neg hgt]
            exact Or.inl rfl
        · exact Or.inr (by rw [List.map_cons]; exact List.mem_cons_of_mem _ hmem)
      · refine le_trans ?_ hle
        rw [hstep]
        by_cases hgt : de.data.accounts.length > st.allAccounts.length
        · rw [if_pos hgt]; exact le_of_lt hgt
        · rw [if_neg hgt]
      · intro x hx
        rcases List.mem_cons.1 hx with rfl | hxt
        · refine le_trans ?_ hle
          rw [hstep]
          by_cases hgt : x.data.accounts.length > st.allAccounts.length
          · rw [if_pos hgt]
          · rw [if_neg hgt]
            exact Nat.le_of_not_lt hgt
        · exact hall x hxt

theorem foldl_max_zero_mem (l : List ℕ) (hne : l ≠ []) : l.foldl max 0 ∈ l := by
  rcases foldl_max_mem l 0 with h | h
  · rcases l with _ | ⟨a, t⟩
    · exact absurd rfl hne
    · have ha := (foldl_max_ub (a :: t) 0).2 a (List.mem_cons_self _ _)
      rw [h] at ha
      have ha0 : a = 0 := Nat.le_zero.1 ha
      rw [h, ← ha0]
      exact List.mem_cons_self _ _
  · exact h

/-- C3: `aggregateDays` returns absent on no days and the single report
unchanged on one day; on two or more days it groups constituent rows by the
domain-key fallback chain (domain, then ad-unit name, then `unknown`), sums
impressions/clicks/revenue/unfilled-impressions per group, unions the
contributing accounts and currencies lists per group (deduplicated when the
inputs are), recomputes each group's ctr and ecpm from the summed values,
and propagates the maximum account counters and the largest accounts list
seen across the input days. -/
theorem aggregateDays_spec (ds : List DayEntry) (k : String) (g : GRow)
    (hlen : 2 ≤ ds.length)
    (hdata : ∀ de ∈ ds, (de.data.data).isSome)
    (hk : lookupG k (dayAggState ds).domainMap = some g) :
    aggregateDays ([] : List DayEntry) = none
    ∧ (∀ de : DayEntry, aggregateDays [de] = some de.data)
    ∧ aggregateDays ds = some (aggregateReport ds)
    ∧ (aggregateReport ds).data
        = some ((dayAggState ds).domainMap.map (fun p => finishRow p.2))
    ∧ (∀ k2 : String, (lookupG k2 (dayAggState ds).domainMap).isSome
        ↔ ∃ r ∈ allRows ds, rowKey r = k2)
    ∧ g.impressions = (((allRows ds).filter (fun r => rowKey r = k)).map
        (fun r => r.impressions)).sum
    ∧ g.clicks = (((allRows ds).filter (fun r => rowKey r = k)).map
        (fun r => r.clicks)).sum
    ∧ g.revenue = (((allRows ds).filter (fun r => rowKey r = k)).map
        (fun r => r.revenue)).sum
    ∧ g.unfilled_impressions = (((allRows ds).filter (fun r => rowKey r = k)).map
        (fun r => r.unfilled_impressions)).sum
    ∧ (∀ a : String, a ∈ g.accounts
        ↔ ∃ r ∈ (allRows ds).filter (fun r => rowKey r = k), a ∈ r.accounts)
    ∧ (∀ c : String, c ∈ g.currencies
        ↔ ∃ r ∈ (allRows ds).filter (fun r => rowKey r = k), c ∈ r.currencies)
    ∧ ((∀ r ∈ allRows ds, r.accounts.Nodup) → g.accounts.Nodup)
    ∧ ((∀ r ∈ allRows ds, r.currencies.Nodup) → g.currencies.Nodup)
    ∧ (∀ g2 ∈ ((aggregateReport ds).data.getD []),
        g2.ctr = (if g2.impressions > 0
          then round2 (g2.clicks / g2.impressions * 100) else 0)
        ∧ g2.ecpm = (if g2.impressions > 0
          then round2 (g2.revenue / g2.impressions * 1000) else 0))
    ∧ (aggregateReport ds).accountCount ∈ ds.map (fun de => de.data.accountCount)
    ∧ (∀ de ∈ ds, de.data.accountCount ≤ (aggregateReport ds).accountCount)
    ∧ (aggregateReport ds).successfulAccounts
        ∈ ds.map (fun de => de.data.successfulAccounts)
    ∧ (∀ de ∈ ds, de.data.successfulAccounts ≤ (aggregateReport ds).successfulAccounts)
    ∧ (aggregateReport ds).failedAccounts ∈ ds.map (fun de => de.data.failedAccounts)
    ∧ (∀ de ∈ ds, de.data.failedAccounts ≤ (aggregateReport ds).failedAccounts)
    ∧ (aggregateReport ds).accounts ∈ ds.map (fun de => de.data.accounts)
    ∧ (∀ de ∈ ds, de.data.accounts.length ≤ (aggregateReport ds).accounts.length) := by
  have hds_ne : ds ≠ [] := by
    intro hh
    rw [hh] at hlen
    simp at hlen
  have hmap : (dayAggState ds).domainMap
      = groupFold rowKey newGroup addRow [] (allRows ds) :=
    dayFold_domainMap ds ⟨[], [], 0, 0, 0⟩
  have hk2 : lookupG k (groupFold rowKey newGroup addRow [] (allRows ds)) = some g := by
    rw [← hmap]; exact hk
  have hcounter : ∀ (f : DayAggSt → ℕ) (gc : DayEntry → ℕ),
      (∀ (st : DayAggSt) (de : DayEntry) (rows : List GRow),
        de.data.data = some rows → f (dayStep st de) = max (f st) (gc de)) →
      f (dayAggState ds) = (ds.map gc).foldl max (f ⟨[], [], 0, 0, 0⟩) :=
    fun f gc hstep => dayFold_counter f gc hstep ds hdata ⟨[], [], 0, 0, 0⟩
  have hmapne : ∀ (gc : DayEntry → ℕ), ds.map gc ≠ [] := by
    intro gc hh
    rcases ds with _ | ⟨a, t⟩
    · exact hds_ne rfl
    · cases hh
  have hac := hcounter (fun st => st.accountCount) (fun de => de.data.accountCount)
    (fun st de rows h => by unfold dayStep; rw [h])
  have hsa := hcounter (fun st => st.successfulAccounts)
    (fun de => de.data.successfulAccounts)
    (fun st de rows h => by unfold dayStep; rw [h])
  have hfa := hcounter (fun st => st.failedAccounts) (fun de => de.data.failedAccounts)
    (fun st de rows h => by unfold dayStep; rw [h])
  have hacc := dayFold_allAccounts ds hdata ⟨[], [], 0, 0, 0⟩
  dsimp only at hac hsa hfa hacc
  refine ⟨rfl, fun de => rfl, ?_, rfl, ?_, ?_, ?_, ?_, ?_, ?_, ?_, ?_, ?_, ?_,
    ?_, ?_, ?_, ?_, ?_, ?_, ?_, ?_⟩
  · match ds, hlen with
    | a :: b :: t, _ => rfl
  · intro k2
    rw [hmap]
    exact lookupG_groupFold_exists rowKey newGroup addRow (allRows ds) k2
  · exact group_measure_sum rowKey newGroup addRow (fun r => r.impressions)
      (fun r => r.impressions) (fun _ _ => rfl) (fun _ => rfl) (allRows ds) k g hk2
  · exact group_measure_sum rowKey newGroup addRow (fun r => r.clicks)
      (fun r => r.clicks) (fun _ _ => rfl) (fun _ => rfl) (allRows ds) k g hk2
  · exact group_measure_sum rowKey newGroup addRow (fun r => r.revenue)
      (fun r => r.revenue) (fun _ _ => rfl) (fun _ => rfl) (allRows ds) k g hk2
  · exact group_measure_sum rowKey newGroup addRow (fun r => r.unfilled_impressions)
      (fun r => r.unfilled_impressions) (fun _ _ => rfl) (fun _ => rfl)
      (allRows ds) k g hk2
  · intro a
    exact group_measure_mem rowKey newGroup addRow (fun r => r.accounts)
      (fun r => r.accounts) (fun _ _ _ => unionInto_mem _ _ _) (fun _ _ => Iff.rfl)
      (allRows ds) k g hk2 a
  · intro c
    exact group_measure_mem rowKey newGroup addRow (fun r => r.currencies)
      (fun r => r.currencies) (fun _ _ _ => unionInto_mem _ _ _) (fun _ _ => Iff.rfl)
      (allRows ds) k g hk2 c
  · intro hnd
    exact group_nodup rowKey newGroup addRow (fun r => r.accounts)
      (fun _ _ h => unionInto_nodup _ _ h) (allRows ds) k g hk2
      (fun x hx => hnd x hx)
  · intro hnd
    exact group_nodup rowKey newGroup addRow (fun r => r.currencies)
      (fun _ _ h => unionInto_nodup _ _ h) (allRows ds) k g hk2
      (fun x hx => hnd x hx)
  · intro g2 hg2
    rcases List.mem_map.1 hg2 with ⟨p, hp, he⟩
    rw [← he]
    exact ⟨rfl, rfl⟩
  · rw [show (aggregateReport ds).accountCount = (dayAggState ds).accountCount from rfl,
      hac]
    exact foldl_max_zero_mem _ (hmapne _)
  · intro de hde
    rw [show (aggregateReport ds).accountCount = (dayAggState ds).accountCount from rfl,
      hac]
    exact (foldl_max_ub _ 0).2 _ (List.mem_map_of_mem _ hde)
  · rw [show (aggregateReport ds).successfulAccounts
        = (dayAggState ds).successfulAccounts from rfl, hsa]
    exact foldl_max_zero_mem _ (hmapne _)
  · intro de hde
    rw [show (aggregateReport ds).successfulAccounts
        = (dayAggState ds).successfulAccounts from rfl, hsa]
    exact (foldl_max_ub _ 0).2 _ (List.mem_map_of_mem _ hde)
  · rw [show (aggregateReport ds).failedAccounts
        = (dayAggState ds).failedAccounts from rfl, hfa]
    exact foldl_max_zero_mem _ (hmapne _)
  · intro de hde
    rw [show (aggregateReport ds).failedAccounts
        = (dayAggState ds).failedAccounts from rfl, hfa]
    exact (foldl_max_ub _ 0).2 _ (List.mem_map_of_mem _ hde)
  · have hor : (dayAggState ds).allAccounts = []
        ∨ (dayAggState ds).allAccounts ∈ ds.map (fun de => de.data.accounts) :=
      hacc.1
    have hall : ∀ de ∈ ds, de.data.accounts.length
        ≤ (dayAggState ds).allAccounts.length := hacc.2.2
    rcases hor with heq | hmem
    · obtain ⟨de0, t, hds⟩ : ∃ de0 t, ds = de0 :: t := by
        rcases ds with _ | ⟨a, t⟩
        · exact absurd rfl hds_ne
        · exact ⟨a, t, rfl⟩
      have h0 : de0.data.accounts.length ≤ 0 := by
        have h1 := hall de0 (by rw [hds]; exact List.mem_cons_self _ _)
        rw [heq] at h1
        simpa using h1
      have hnil : de0.data.accounts = [] := List.length_eq_zero.1 (Nat.le_zero.1 h0)
      show (dayAggState ds).allAccounts ∈ ds.map (fun de => de.data.accounts)
      rw [heq, hds, List.map_cons, ← hnil]
      exact List.mem_cons_self _ _
    · exact hmem
  · intro de hde
    exact hacc.2.2 de hde

/-! Witnesses. -/

theorem getDataForRange_all_or_nothing_witness :
    (getDataForRange stW 1 5 6 ("AD_UNIT")).isSome
      ↔ ∀ d ∈ rangeDates 5 6, (stW 1 d ("AD_UNIT")).isSome :=
  (getDataForRange_all_or_nothing stW 1 5 6 ("AD_UNIT") (by decide)).1

theorem aggregateDays_spec_witness :
    aggregateDays dsW = some (aggregateReport dsW) :=
  (aggregateDays_spec dsW ("d") gW (by decide) (by decide)
    (by
      norm_num [dayAggState, dayStep, dsW, repW, rowW, gW, groupFold, insertG,
        hasKey, updateG, lookupG, rowKey, newGroup, addRow, unionInto]
      decide)).2.2.1

theorem aggregateMetrics_currency_witness :
    ((aggregateMetrics exRates [exAccEUR, exAccUSD] ("AD_UNIT")).data.map
        (fun r => (r.revenue, r.original_currency)))
      = [(100, some ("EUR")), (50, some ("USD"))] :=
  (aggregateMetrics_currency exRates [exAccEUR, exAccUSD] ("AD_UNIT")
    ("Unknown (A)") gW4
    (by
      have h1 : ("Unknown" ++ " (" ++ "A" ++ ")" : String) = "Unknown (A)" := by decide
      have h2 : ("Unknown" ++ " (" ++ "B" ++ ")" : String) = "Unknown (B)" := by decide
      have h3 : ¬(("Unknown (A)" : String) = "Unknown (B)") := by decide
      have h4 : ¬(("EUR" : String) = "") := by decide
      have h5 : ¬(("USD" : String) = "EUR") := by decide
      norm_num [mAggState, mPairs, mStep, insertG, hasKey, updateG, lookupG,
        mKeyF, mKey, mMk, mAdd, newMGroup, addMRow, curOf, jsOr, jsOrOpt, exRates,
        exRowEUR, exRowUSD, exAccEUR, exAccUSD, transformRow, convertToUSD,
        groupFold, gW4, h1, h2, h3, h4, h5, List.find?])).2.2.1

theorem getAccountStatistics_retry_witness :
    getAccountStatistics accW (fun _ => AttemptOutcome.exn true ("limit"))
      = (failureRecord accW (some ("limit")), [5000, 10000], 3) :=
  (getAccountStatistics_retry accW (fun _ => AttemptOutcome.exn true ("limit"))
    (fun _ => AttemptOutcome.exn false ("bad")) (fun _ => "limit") ("bad")
    (fun _ => rfl) rfl).1

theorem getMulti_partial_failures_witness :
    (getMultiAccountStatistics exRates (Except.ok [accW]) fetchFailW ("DATE")).isSuccess
      = true :=
  (getMulti_partial_failures exRates [accW] fetchFailW ("DATE") ("err")
    (by simp)).2.2.1

theorem worker_single_flight_witness :
    ({ running := false, userReq := false, inFlight := 0 } : WCfg).inFlight ≤ 1 :=
  (worker_single_flight ⟨false, false, 0⟩ WReach.init ⟨false, false⟩ ⟨true, false⟩
    (Except.ok ()) fetchW storeW 0 1 2 ("AD_UNIT") rfl).1

theorem activeView_amended_witness :
    (aggregateReport dsW).totals.active_view = (aggregateReport dsW).totals.pmr :=
  (activeView_amended dsW (aggregateReport dsW) exRates [] ("DATE")
    (by decide) rfl).1

theorem tieredCache_degrades_witness :
    (getCachedData redFailW [] 0 1 2 3 ("AD_UNIT")).1
      = getFromSQLite ([] : SqliteCache ℕ) 0 1 (generateCacheKey 1 2 3 ("AD_UNIT")) :=
  (tieredCache_degrades redFailW redOffW [] 0 1 2 3 ("AD_UNIT") 7 300 rfl rfl).1

end DW
